import Mathlib

/-!
# rp: the `Program` orchestrator (`src/program.cpp`)

A shallow embedding of `Program::Program`, `Program::find_gadgets` and
`Program::search_and_display`, and of the interfaces they call.

* `std::map<std::string, Gadget*>` is an association list kept in ascending key
  order (`Catalog`), with `count`, `find`, `insert` and the write through the
  iterator returned by `find`.
* `Gadget*` values are embedded as values.  The only mutation in `program.cpp`
  is `add_new_one` on an object already stored in the map; it changes neither
  the disassembly text nor the first offset of that object, and an object is
  inserted only while its text is absent from the map, so a pointer that shows
  up again later in a list reads the same text and first offset as the value
  embedded here.
* Virtual dispatch (`ExecutableFormat`, `CPU`) is a record of functions.
* `RAISE_EXCEPTION(msg)` is `Except.error msg`; dereferencing a null pointer and
  reading the first offset of a gadget without any offset have no defined
  result and are `none`.
* `unsigned long long` arithmetic done in `program.cpp` is reduced modulo `2 ^ 64`.
* Text written to `std::cout` is not part of the model, except the calls to
  `display_offset_lf`, which are the result of `search_and_display`.
-/

namespace Rp

/-- Value of an `unsigned long long` expression: reduction modulo `2 ^ 64`. -/
def u64 (n : Nat) : Nat := n % 2 ^ 64

/-! ## Data model -/

/-- Modelled from the spec: one decoded instruction as the disassembler reports
it (`instruction.hpp` is not part of the sources at hand): its text, whether it
belongs to the gadget-terminating class, and whether it is an unconditional
control transfer. -/
structure Instruction where
  disassembly : String
  is_terminating : Bool
  is_unconditional_transfer : Bool
deriving DecidableEq, Repr

/-- A location of a gadget: (raw offset, virtual base of the section). -/
abbrev Location := Nat × Nat

/-- Modelled from the spec: the `Gadget` class (`gadget.hpp` is not part of the
sources at hand): disassembly text, the decoded instructions, and the locations
(raw offset, section virtual base) where the text occurs, in the order they
were stored. -/
structure Gadget where
  m_disassembly : String
  m_instructions : List Instruction
  m_locations : List Location
deriving DecidableEq, Repr

namespace Gadget

/-- Modelled from the spec: `Gadget::get_disassembly`, the text that is the
merge key. -/
def get_disassembly (g : Gadget) : String := g.m_disassembly

/-- Modelled from the spec: `Gadget::get_first_offset`, the raw offset of the
first stored location; no result when nothing is stored. -/
def get_first_offset (g : Gadget) : Option Nat := g.m_locations.head?.map Prod.fst

/-- Modelled from the spec: `Gadget::add_new_one`, which appends one location
and leaves everything else as it is. -/
def add_new_one (g : Gadget) (offset va_section : Nat) : Gadget :=
  { g with m_locations := g.m_locations ++ [(offset, va_section)] }

/-- Number of instructions of the gadget. -/
def instruction_count (g : Gadget) : Nat := g.m_instructions.length

/-- Tail invariant of the spec: there is a last instruction, it is in the
terminating class, and no earlier instruction is an unconditional control
transfer. -/
def tail_invariant (g : Gadget) : Prop :=
  g.m_instructions.getLast?.map Instruction.is_terminating = some true ∧
  ∀ i ∈ g.m_instructions.dropLast, i.is_unconditional_transfer = false

instance (g : Gadget) : Decidable (tail_invariant g) := by
  unfold tail_invariant; infer_instance

end Gadget

/-- Modelled from the spec: the `Section` class (`section.hpp` is not part of
the sources at hand): name, raw file offset, size and the raw bytes. -/
structure Section where
  m_name : String
  m_offset : Nat
  m_size : Nat
  m_section : List Nat
deriving DecidableEq, Repr

namespace Section

def get_name (s : Section) : String := s.m_name
def get_offset (s : Section) : Nat := s.m_offset
def get_size (s : Section) : Nat := s.m_size
def get_section_buffer (s : Section) : List Nat := s.m_section

/-- Modelled from the spec: `Section::search_in_memory`, every position of the
buffer at which the `size` bytes of `hex_values` occur, overlapping matches
included, in ascending order. -/
def search_in_memory (s : Section) (hex_values : List Nat) (size : Nat) : List Nat :=
  (List.range s.m_section.length).filter fun i =>
    decide (i + size ≤ s.m_section.length) &&
      decide ((s.m_section.drop i).take size = hex_values.take size)

end Section

/-- The opened `std::ifstream`: the bytes of the file and the read position. -/
structure IfStream where
  bytes : List Nat
  pos : Nat
deriving DecidableEq, Repr

namespace IfStream

/-- Value of a byte sequence stored least significant byte first. -/
def le_value : List Nat → Nat
  | [] => 0
  | b :: bs => b % 256 + 256 * le_value bs

/-- `m_file.read((char*)&magic_dword, sizeof(magic_dword))` on a zeroed
`magic_dword`: up to four bytes are stored from the read position on, the bytes
the file does not have stay zero, and the position moves past what was read. -/
def read_dword (f : IfStream) : Nat × IfStream :=
  let got := (f.bytes.drop f.pos).take 4
  (le_value got, { f with pos := f.pos + got.length })

end IfStream

/-- The `CPU` interface (`cpu.hpp`): the per-section gadget search
`find_gadget_in_memory(buffer, size, vaddr, depth)`. -/
structure CPU where
  class_name : String
  find_gadget_in_memory : List Nat → Nat → Nat → Nat → List Gadget

/-- The `ExecutableFormat` interface (`executable_format.hpp`). -/
structure ExecutableFormat where
  class_name : String
  get_executables_section : IfStream → List Section
  raw_offset_to_va : Nat → Nat → Nat
  get_cpu : IfStream → Option CPU

/-- Values of `CPU::E_CPU`; `other` stands for any value that is none of the
three enumerators (the `default:` label of the constructor's `switch`). -/
inductive E_CPU where
  | CPU_IA32
  | CPU_IA64
  | CPU_UNKNOWN
  | other (value : Nat)
deriving DecidableEq, Repr

/-- What `program.cpp` obtains from the rest of the repository and from the
system while constructing a `Program`: opening a file, the three
`new (std::nothrow)` expressions (`none` is the null pointer), and the static
`ExecutableFormat::GetExecutableFormat`. -/
structure Env where
  open_file : String → Option (List Nat)
  new_Raw : Option ExecutableFormat
  new_Ia32 : Option CPU
  new_Ia64 : Option CPU
  GetExecutableFormat : Nat → Option ExecutableFormat

/-- The members of `Program`; the two pointers may be null. -/
structure Program where
  m_file : IfStream
  m_cpu : Option CPU
  m_exformat : Option ExecutableFormat

/-! ## `std::map<std::string, Gadget*>` -/

/-- The gadget catalog: entries (key, gadget) in ascending key order. -/
abbrev Catalog := List (String × Gadget)

/-- Order of `std::string` keys: lexicographic on the characters. -/
def key_less (a b : String) : Prop := a.toList < b.toList

instance (a b : String) : Decidable (key_less a b) := by
  unfold key_less; infer_instance

namespace Catalog

/-- The keys in iteration order. -/
def keys (m : Catalog) : List String := m.map Prod.fst

/-- `std::map::count`: number of entries stored under the key. -/
def count (m : Catalog) (k : String) : Nat := (m.filter fun e => e.1 = k).length

/-- `std::map::find`, read as the gadget the iterator points to. -/
def find : Catalog → String → Option Gadget
  | [], _ => none
  | q :: t, k => if q.1 = k then some q.2 else find t k

/-- Placement of a new entry in front of the first greater key. -/
def place (e : String × Gadget) : Catalog → Catalog
  | [] => [e]
  | q :: t => if key_less e.1 q.1 then e :: q :: t else q :: place e t

/-- `std::map::insert`: nothing happens when the key is present, otherwise
the entry is added at its place in the key order. -/
def insert (m : Catalog) (e : String × Gadget) : Catalog :=
  if (m.find e.1).isSome then m else place e m

/-- Write through the iterator returned by `find`:
`g->second` becomes `f (g->second)`. -/
def modify (k : String) (f : Gadget → Gadget) : Catalog → Catalog
  | [] => []
  | q :: t => if q.1 = k then (q.1, f q.2) :: t else q :: modify k f t

end Catalog

/-! ## `Program::Program` -/

open E_CPU in
/-- `Program::Program(program_path, arch)`, lines 16-67 (the constructor; a
definition named `Program` inside the namespace `Program` would hide the type). -/
def Program.ctor (env : Env) (program_path : String) (arch : E_CPU) :
    Except String Program :=
  match env.open_file program_path with
  | none => .error "Cannot open the file"
  | some content => do
    let p : Program := { m_file := ⟨content, 0⟩, m_cpu := none, m_exformat := none }
    if arch ≠ CPU_UNKNOWN then
      let p := { p with m_exformat := env.new_Raw }
      if p.m_exformat.isNone then
        throw "Cannot allocate raw"
      let p ← match arch with
        | CPU_IA32 => pure { p with m_cpu := env.new_Ia32 }
        | CPU_IA64 => pure { p with m_cpu := env.new_Ia64 }
        | _ => throw "Don't know your architecture"
      if p.m_cpu.isNone then
        throw "Cannot allocate m_cpu"
      pure p
    else
      let (magic_dword, file) := p.m_file.read_dword
      let p := { p with m_file := file }
      let p := { p with m_exformat := env.GetExecutableFormat magic_dword }
      match p.m_exformat with
      | none => throw "GetExecutableFormat fails"
      | some exformat =>
        let p := { p with m_cpu := exformat.get_cpu p.m_file }
        if p.m_cpu.isNone then
          throw "get_cpu fails"
        pure p

/-! ## `Program::find_gadgets` -/

/-- Body of the inner loop of `find_gadgets`, lines 113-131: one gadget
`it_g` returned for the section with virtual base `va_section`. -/
def find_gadgets_merge (va_section : Nat) (gadgets_found : Catalog) (it_g : Gadget) :
    Option Catalog :=
  if gadgets_found.count it_g.get_disassembly > 0 then
    match it_g.get_first_offset with
    | none => none
    | some offset =>
      some (Catalog.modify it_g.get_disassembly
        (fun g => g.add_new_one offset va_section) gadgets_found)
  else
    some (gadgets_found.insert (it_g.get_disassembly, it_g))

/-- The inner loop of `find_gadgets`, lines 110-132. -/
def find_gadgets_list (va_section : Nat) : Catalog → List Gadget → Option Catalog
  | gadgets_found, [] => some gadgets_found
  | gadgets_found, it_g :: rest =>
    match find_gadgets_merge va_section gadgets_found it_g with
    | none => none
    | some found => find_gadgets_list va_section found rest

/-- Body of the outer loop of `find_gadgets`, lines 98-132: one section. -/
def find_gadgets_section (m_cpu : Option CPU) (m_exformat : ExecutableFormat)
    (depth : Nat) (gadgets_found : Catalog) (it_sec : Section) : Option Catalog :=
  let va_section := m_exformat.raw_offset_to_va it_sec.get_offset it_sec.get_offset
  match m_cpu with
  | none => none
  | some cpu =>
    let gadgets := cpu.find_gadget_in_memory
      it_sec.get_section_buffer it_sec.get_size va_section depth
    find_gadgets_list va_section gadgets_found gadgets

/-- The outer loop of `find_gadgets`, lines 96-133. -/
def find_gadgets_sections (m_cpu : Option CPU) (m_exformat : ExecutableFormat)
    (depth : Nat) : Catalog → List Section → Option Catalog
  | gadgets_found, [] => some gadgets_found
  | gadgets_found, it_sec :: rest =>
    match find_gadgets_section m_cpu m_exformat depth gadgets_found it_sec with
    | none => none
    | some found => find_gadgets_sections m_cpu m_exformat depth found rest

/-- `Program::find_gadgets(depth)`, lines 86-136. -/
def Program.find_gadgets (p : Program) (depth : Nat) : Option Catalog :=
  match p.m_exformat with
  | none => none
  | some exformat =>
    let executable_sections := exformat.get_executables_section p.m_file
    find_gadgets_sections p.m_cpu exformat depth [] executable_sections

/-! ## `Program::search_and_display` -/

/-- The inner loop of `search_and_display`, lines 147-153: every hit `it2` of
the section is turned into a virtual address and handed to `display_offset_lf`;
`out` is the sequence of addresses displayed so far. -/
def search_and_display_hits (m_exformat : ExecutableFormat) (it : Section) :
    List Nat → List Nat → List Nat
  | out, [] => out
  | out, it2 :: rest =>
    let va_section := m_exformat.raw_offset_to_va it.get_offset it.get_offset
    let va := u64 (va_section + it2)
    search_and_display_hits m_exformat it (out ++ [va]) rest

/-- The outer loop of `search_and_display`, lines 144-154.  The search of a
section is `search_in_memory`. -/
def search_and_display_sections (m_exformat : ExecutableFormat)
    (search_in_memory : Section → List Nat → Nat → List Nat)
    (hex_values : List Nat) (size : Nat) : List Nat → List Section → List Nat
  | out, [] => out
  | out, it :: rest =>
    let ret := search_in_memory it hex_values size
    search_and_display_sections m_exformat search_in_memory hex_values size
      (search_and_display_hits m_exformat it out ret) rest

/-- `Program::search_and_display(hex_values, size)`, lines 138-155: the
addresses passed to `display_offset_lf`, in order. -/
def Program.search_and_display (p : Program)
    (search_in_memory : Section → List Nat → Nat → List Nat)
    (hex_values : List Nat) (size : Nat) : Option (List Nat) :=
  match p.m_exformat with
  | none => none
  | some exformat =>
    let executable_sections := exformat.get_executables_section p.m_file
    some (search_and_display_sections exformat search_in_memory hex_values size []
      executable_sections)

/-! ## Vocabulary of the properties -/

/-- What the per-section searches of one run return, in processing order; every
gadget is paired with the virtual base of the section it was searched in. -/
def returned (cpu : CPU) (exformat : ExecutableFormat) (depth : Nat)
    (sections : List Section) : List (Nat × Gadget) :=
  sections.flatMap fun s =>
    (cpu.find_gadget_in_memory s.get_section_buffer s.get_size
      (exformat.raw_offset_to_va s.get_offset s.get_offset) depth).map
      fun g => (exformat.raw_offset_to_va s.get_offset s.get_offset, g)

/-- The returned gadgets whose disassembly text is `T`, in processing order. -/
def occurrences (l : List (Nat × Gadget)) (T : String) : List (Nat × Gadget) :=
  l.filter fun x => x.2.get_disassembly = T

/-- The location the merge stores for a gadget that meets an existing entry:
its first offset with the virtual base of the section being processed. -/
def appended_location (x : Nat × Gadget) : Location :=
  (x.2.get_first_offset.getD 0, x.1)

/-- The entry a run builds for the text `T`: the first gadget returned with
that text, followed by the appended locations of the later ones. -/
def merged_entry (l : List (Nat × Gadget)) (T : String) : Option Gadget :=
  match occurrences l T with
  | [] => none
  | x :: rest =>
    some { x.2 with m_locations := x.2.m_locations ++ rest.map appended_location }

/-- The gadget carries exactly one location and its base is the virtual base of
the section it was searched in. -/
def carries_one_location (x : Nat × Gadget) : Prop :=
  ∃ o, x.2.m_locations = [(o, x.1)]

instance (x : Nat × Gadget) : Decidable (carries_one_location x) :=
  decidable_of_iff (x.2.m_locations.length = 1 ∧ x.2.m_locations.map Prod.snd = [x.1]) (by
    unfold carries_one_location
    rcases x with ⟨va, g⟩
    rcases hl : g.m_locations with _ | ⟨⟨o, b⟩, _ | ⟨y, t⟩⟩ <;> simp)

/-- The text `T` is returned at raw offset `O` in a section of virtual base `B`. -/
def returned_at (l : List (Nat × Gadget)) (T : String) (O B : Nat) : Prop :=
  ∃ x ∈ l, x.2.get_disassembly = T ∧ x.2.m_locations = [(O, B)]

instance (l : List (Nat × Gadget)) (T : String) (O B : Nat) :
    Decidable (returned_at l T O B) := by
  unfold returned_at; infer_instance

/-- Sum of the sizes of the location sets of a catalog. -/
def total_locations (m : Catalog) : Nat := (m.map fun e => e.2.m_locations.length).sum

/-- A catalog represents the merge of the gadgets `l`: its keys are unique and
under every text it stores the merged entry of `l`. -/
def Represents (m : Catalog) (l : List (Nat × Gadget)) : Prop :=
  (Catalog.keys m).Nodup ∧ ∀ T, Catalog.find m T = merged_entry l T

/-- Invariant of the catalog: keys are unique, every key is the disassembly
text of the gadget stored under it, and no location set is empty. -/
def catalog_invariant (m : Catalog) : Prop :=
  (Catalog.keys m).Nodup ∧ (∀ e ∈ m, e.1 = e.2.get_disassembly) ∧
    ∀ e ∈ m, e.2.m_locations ≠ []

instance (m : Catalog) : Decidable (catalog_invariant m) := by
  unfold catalog_invariant; infer_instance

/-! ## Concrete runs -/

/-- The gadget `pop eax; ret` found at one raw offset of a section. -/
def pop_eax_ret (offset va_section : Nat) : Gadget :=
  ⟨"pop eax; ret", [⟨"pop eax", false, false⟩, ⟨"ret", true, true⟩], [(offset, va_section)]⟩

/-- The gadget `ret` found at one raw offset of a section. -/
def ret_only (offset va_section : Nat) : Gadget :=
  ⟨"ret", [⟨"ret", true, true⟩], [(offset, va_section)]⟩

/-- A format with the single executable section `.text`, virtual base `0x1000`. -/
def scenario_format : ExecutableFormat :=
  ⟨"Scenario", fun _ => [⟨".text", 0x400, 0x800, []⟩], fun _ _ => 0x1000, fun _ => none⟩

/-- A search that finds `pop eax; ret` at the raw offsets `0x100` and `0x340`
of every section when the depth allows two instructions. -/
def scenario_cpu : CPU :=
  ⟨"Ia32", fun _ _ va depth =>
    if depth < 2 then [] else [pop_eax_ret 0x100 va, pop_eax_ret 0x340 va]⟩

def scenario_program : Program := ⟨⟨[], 0⟩, some scenario_cpu, some scenario_format⟩

/-- Two sections whose virtual base is their raw offset. -/
def section_a : Section := ⟨".text", 0x1000, 0x100, []⟩
def section_b : Section := ⟨".init", 0x2000, 0x100, []⟩

def format_ab : ExecutableFormat :=
  ⟨"AB", fun _ => [section_a, section_b], fun offset _ => offset, fun _ => none⟩

def format_ba : ExecutableFormat :=
  ⟨"BA", fun _ => [section_b, section_a], fun offset _ => offset, fun _ => none⟩

/-- A search that finds `ret` at raw offset `0x10` and `pop eax; ret` at `0x20`
of every section. -/
def two_gadget_cpu : CPU :=
  ⟨"Ia32", fun _ _ va _ => [ret_only 0x10 va, pop_eax_ret 0x20 va]⟩

/-- A search whose gadget for the section at `0x1000` carries two locations. -/
def two_location_cpu : CPU :=
  ⟨"Ia32", fun _ _ va _ =>
    if va = 0x1000 then [⟨"ret", [⟨"ret", true, true⟩], [(1, 0x1000), (2, 0x1000)]⟩]
    else [ret_only 3 va]⟩

/-- A format without executable sections. -/
def no_section_format : ExecutableFormat :=
  ⟨"Empty", fun _ => [], fun offset _ => offset, fun _ => none⟩

/-- A search that returns nothing for a buffer of size 0 and `ret` otherwise. -/
def sized_cpu : CPU :=
  ⟨"Ia32", fun _ size va _ => if size = 0 then [] else [ret_only 0 va]⟩

/-- A section of size 0. -/
def empty_section : Section := ⟨".empty", 0x3000, 0, []⟩

/-- A section without the byte `C3`, raw offset `0x200`. -/
def section_without_ret : Section := ⟨".plt", 0x200, 4, [0x90, 0x90, 0x90, 0x90]⟩

/-- A section with the byte `C3` at the in-section offsets 5 and 12, raw
offset `0x400`. -/
def section_with_ret : Section :=
  ⟨".text", 0x400, 14,
    [0x90, 0x90, 0x90, 0x90, 0x90, 0xC3, 0x90, 0x90, 0x90, 0x90, 0x90, 0x90, 0xC3, 0x90]⟩

/-- A format that maps the section at raw offset `0x400` to the virtual base
`0x2000` and the one at `0x200` to `0x1000`. -/
def search_format : ExecutableFormat :=
  ⟨"Search", fun _ => [section_without_ret, section_with_ret],
    fun offset _ => if offset = 0x400 then 0x2000 else 0x1000, fun _ => none⟩

/-- A format recognised from its magic, whose header names a CPU. -/
def elf_format : ExecutableFormat :=
  ⟨"Elf", fun _ => [section_a], fun offset _ => offset, fun _ => some scenario_cpu⟩

/-- The headerless format. -/
def raw_format : ExecutableFormat :=
  ⟨"Raw", fun f => [⟨"raw", 0, f.bytes.length, f.bytes⟩], fun offset _ => offset,
    fun _ => none⟩

def ia64_cpu : CPU := ⟨"Ia64", fun _ _ _ _ => []⟩

/-- A host with the files `a.elf` (magic `7F 45 4C 46`) and `b.bin`, where every
allocation succeeds and only the magic `0x464C457F` is recognised. -/
def host_env : Env :=
  ⟨fun path =>
      if path = "a.elf" then some [0x7F, 0x45, 0x4C, 0x46, 1]
      else if path = "b.bin" then some [1, 2, 3, 4] else none,
    some raw_format, some scenario_cpu, some ia64_cpu,
    fun magic => if magic = 0x464C457F then some elf_format else none⟩

/-- The same host when `new (std::nothrow) Raw()` returns the null pointer. -/
def exhausted_env : Env := { host_env with new_Raw := none }

/-- The same host when `new (std::nothrow) Ia32()` returns the null pointer. -/
def no_ia32_env : Env := { host_env with new_Ia32 := none }

/-! ## Facts about the map operations -/

namespace Catalog

theorem find_isSome_iff_mem_keys (m : Catalog) (k : String) :
    (find m k).isSome = true ↔ k ∈ keys m := by
  induction m with
  | nil => simp [find, keys]
  | cons q t ih =>
    by_cases h : q.1 = k
    · simp [find, keys, h]
    · have ih' : (find t k).isSome = true ↔ k ∈ List.map Prod.fst t := ih
      have h' : ¬ k = q.1 := fun e => h e.symm
      simp [find, keys, h, h', ih']

theorem find_eq_none_iff (m : Catalog) (k : String) : find m k = none ↔ k ∉ keys m := by
  rw [← find_isSome_iff_mem_keys]
  cases find m k <;> simp

theorem count_pos_iff (m : Catalog) (k : String) : 0 < count m k ↔ k ∈ keys m := by
  unfold count keys
  rw [List.length_pos_iff_exists_mem]
  constructor
  · rintro ⟨e, he⟩
    rw [List.mem_filter] at he
    have h2 : e.1 = k := by simpa using he.2
    exact List.mem_map.mpr ⟨e, he.1, h2⟩
  · intro h
    obtain ⟨e, he, h2⟩ := List.mem_map.mp h
    exact ⟨e, List.mem_filter.mpr ⟨he, by simpa using h2⟩⟩

theorem count_le_one (m : Catalog) (k : String) (h : (keys m).Nodup) : count m k ≤ 1 := by
  induction m with
  | nil => simp [count]
  | cons q t ih =>
    have hnd : q.1 ∉ keys t ∧ (keys t).Nodup := by simpa [keys] using h
    have iht : count t k ≤ 1 := ih hnd.2
    by_cases hq : q.1 = k
    · have h0 : ¬ 0 < count t k := by
        rw [count_pos_iff]; rw [← hq]; exact hnd.1
      have hc : count (q :: t) k = count t k + 1 := by simp [count, hq]
      omega
    · have hc : count (q :: t) k = count t k := by simp [count, hq]
      omega

theorem count_eq_one_iff (m : Catalog) (k : String) (h : (keys m).Nodup) :
    count m k = 1 ↔ k ∈ keys m := by
  have h1 := count_le_one m k h
  constructor
  · intro h3
    exact (count_pos_iff m k).mp (by omega)
  · intro h3
    have h2 := (count_pos_iff m k).mpr h3
    omega

theorem find_place (e : String × Gadget) (m : Catalog) (k : String) (h : find m e.1 = none) :
    find (place e m) k = if k = e.1 then some e.2 else find m k := by
  induction m with
  | nil =>
    by_cases hk : k = e.1
    · simp [place, find, hk]
    · have hk' : ¬ e.1 = k := fun x => hk x.symm
      simp [place, find, hk, hk']
  | cons q t ih =>
    have hq : ¬ q.1 = e.1 := by
      intro hq; simp [find, hq] at h
    have ht : find t e.1 = none := by simpa [find, hq] using h
    by_cases hl : key_less e.1 q.1
    · by_cases hk : k = e.1
      · simp [place, hl, find, hk]
      · have hk' : ¬ e.1 = k := fun x => hk x.symm
        simp [place, hl, find, hk, hk']
    · by_cases hk : k = e.1
      · subst hk
        simp [place, hl, find, hq, ih ht]
      · simp [place, hl, find, ih ht, hk]

theorem keys_place (e : String × Gadget) (m : Catalog) :
    (keys (place e m)).Perm (e.1 :: keys m) := by
  induction m with
  | nil => simp [place, keys]
  | cons q t ih =>
    by_cases hl : key_less e.1 q.1
    · simp [place, hl, keys]
    · have ih' : (List.map Prod.fst (place e t)).Perm (e.1 :: List.map Prod.fst t) := ih
      simp only [place, hl, keys, if_false, List.map_cons]
      exact (List.Perm.cons q.1 ih').trans (List.Perm.swap _ _ _)

theorem find_insert (m : Catalog) (e : String × Gadget) (k : String) (h : find m e.1 = none) :
    find (insert m e) k = if k = e.1 then some e.2 else find m k := by
  simp [insert, h, find_place e m k h]

theorem keys_insert (m : Catalog) (e : String × Gadget) (h : find m e.1 = none) :
    (keys (insert m e)).Perm (e.1 :: keys m) := by
  simp only [insert, h, Option.isSome_none, Bool.false_eq_true, if_false]
  exact keys_place e m

theorem find_modify (k : String) (f : Gadget → Gadget) (m : Catalog) (k' : String) :
    find (modify k f m) k' = if k' = k then (find m k).map f else find m k' := by
  induction m with
  | nil => simp [modify, find]
  | cons q t ih =>
    by_cases hq : q.1 = k
    · by_cases hk : k' = k
      · subst hk; simp [modify, find, hq]
      · have : ¬ k = k' := fun x => hk x.symm
        simp [modify, find, hq, hk, this]
    · by_cases hk : k' = k
      · subst hk
        simp [modify, find, hq, ih]
      · simp [modify, find, hq, hk, ih]

theorem keys_modify (k : String) (f : Gadget → Gadget) (m : Catalog) :
    keys (modify k f m) = keys m := by
  induction m with
  | nil => simp [modify, keys]
  | cons q t ih =>
    have ih' : List.map Prod.fst (modify k f t) = List.map Prod.fst t := ih
    by_cases hq : q.1 = k
    · simp [modify, keys, hq]
    · simp [modify, keys, hq, ih']

end Catalog

/-! ## One merge step -/

theorem merge_present (va : Nat) (c : Catalog) (g : Gadget) (o : Nat)
    (hc : g.get_disassembly ∈ Catalog.keys c) (ho : g.get_first_offset = some o) :
    find_gadgets_merge va c g =
      some (Catalog.modify g.get_disassembly (fun e => e.add_new_one o va) c) := by
  have h := (Catalog.count_pos_iff c g.get_disassembly).mpr hc
  simp [find_gadgets_merge, h, ho]

theorem merge_absent (va : Nat) (c : Catalog) (g : Gadget)
    (hc : g.get_disassembly ∉ Catalog.keys c) :
    find_gadgets_merge va c g = some (c.insert (g.get_disassembly, g)) := by
  have h : ¬ 0 < Catalog.count c g.get_disassembly := by
    rw [Catalog.count_pos_iff]; exact hc
  simp only [find_gadgets_merge, gt_iff_lt, h, if_false]

theorem first_offset_of_ne_nil (g : Gadget) (h : g.m_locations ≠ []) :
    ∃ o, g.get_first_offset = some o := by
  unfold Gadget.get_first_offset
  cases hl : g.m_locations with
  | nil => exact absurd hl h
  | cons a t => exact ⟨a.1, by simp⟩

theorem merged_entry_snoc (l : List (Nat × Gadget)) (x : Nat × Gadget) (T : String) :
    merged_entry (l ++ [x]) T =
      if x.2.get_disassembly = T then
        match merged_entry l T with
        | none => some x.2
        | some e => some (e.add_new_one (appended_location x).1 x.1)
      else merged_entry l T := by
  unfold merged_entry occurrences
  rw [List.filter_append]
  by_cases hx : x.2.get_disassembly = T
  · cases hl : List.filter (fun x => decide (x.2.get_disassembly = T)) l with
    | nil => simp [hx]
    | cons y rest => simp [hx, Gadget.add_new_one, appended_location]
  · simp [hx]

theorem represents_nil : Represents [] [] := by
  constructor
  · simp [Catalog.keys]
  · intro T; simp [Catalog.find, merged_entry, occurrences]

theorem represents_step (c : Catalog) (l : List (Nat × Gadget)) (x : Nat × Gadget)
    (hrep : Represents c l) (hx : x.2.m_locations ≠ []) :
    ∃ c', find_gadgets_merge x.1 c x.2 = some c' ∧ Represents c' (l ++ [x]) := by
  obtain ⟨o, ho⟩ := first_offset_of_ne_nil x.2 hx
  have hloc : (appended_location x).1 = o := by simp [appended_location, ho]
  by_cases hc : x.2.get_disassembly ∈ Catalog.keys c
  · refine ⟨_, merge_present x.1 c x.2 o hc ho, ?_, ?_⟩
    · rw [Catalog.keys_modify]; exact hrep.1
    · intro T
      rw [Catalog.find_modify, merged_entry_snoc, hloc]
      by_cases hT : T = x.2.get_disassembly
      · subst hT
        have hsome : (Catalog.find c x.2.get_disassembly).isSome = true :=
          (Catalog.find_isSome_iff_mem_keys c _).mpr hc
        rw [← hrep.2]
        cases hf : Catalog.find c x.2.get_disassembly with
        | none => rw [hf] at hsome; simp at hsome
        | some e => simp
      · have hT' : ¬ x.2.get_disassembly = T := fun h => hT h.symm
        simp [hT, hT', hrep.2]
  · have hnone : Catalog.find c (x.2.get_disassembly, x.2).1 = none :=
      (Catalog.find_eq_none_iff c _).mpr hc
    refine ⟨_, merge_absent x.1 c x.2 hc, ?_, ?_⟩
    · have hp := Catalog.keys_insert c (x.2.get_disassembly, x.2) hnone
      rw [hp.nodup_iff]
      exact List.nodup_cons.mpr ⟨hc, hrep.1⟩
    · intro T
      rw [Catalog.find_insert c _ T hnone, merged_entry_snoc]
      by_cases hT : T = x.2.get_disassembly
      · subst hT
        have : merged_entry l x.2.get_disassembly = none := by
          rw [← hrep.2]; exact hnone
        simp [this]
      · have hT' : ¬ x.2.get_disassembly = T := fun h => hT h.symm
        simp [hT, hT', hrep.2]

/-! ## The loops -/

/-- A property of (catalog, gadgets merged so far) that every merge step
re-establishes for gadgets satisfying `ok` is re-established by the inner loop. -/
theorem list_invariant (Inv : Catalog → List (Nat × Gadget) → Prop)
    (ok : Nat × Gadget → Prop)
    (hstep : ∀ c l x, Inv c l → ok x →
      ∃ c', find_gadgets_merge x.1 c x.2 = some c' ∧ Inv c' (l ++ [x]))
    (va : Nat) (gs : List Gadget) :
    ∀ (c : Catalog) (l : List (Nat × Gadget)), Inv c l →
      (∀ g ∈ gs, ok (va, g)) →
      ∃ c', find_gadgets_list va c gs = some c' ∧
        Inv c' (l ++ gs.map fun g => (va, g)) := by
  induction gs with
  | nil => intro c l hinv _; exact ⟨c, rfl, by simpa using hinv⟩
  | cons g rest ih =>
    intro c l hinv hok
    obtain ⟨c1, h1, hinv1⟩ := hstep c l (va, g) hinv (hok g (by simp))
    obtain ⟨c2, h2, hinv2⟩ := ih c1 (l ++ [(va, g)]) hinv1
      (fun g' hg' => hok g' (List.mem_cons_of_mem _ hg'))
    refine ⟨c2, ?_, ?_⟩
    · have h1' : find_gadgets_merge va c g = some c1 := h1
      simp [find_gadgets_list, h1', h2]
    · simpa using hinv2

theorem returned_cons (cpu : CPU) (exformat : ExecutableFormat) (depth : Nat)
    (s : Section) (rest : List Section) :
    returned cpu exformat depth (s :: rest) =
      (cpu.find_gadget_in_memory s.get_section_buffer s.get_size
        (exformat.raw_offset_to_va s.get_offset s.get_offset) depth).map
        (fun g => (exformat.raw_offset_to_va s.get_offset s.get_offset, g)) ++
      returned cpu exformat depth rest := by
  simp [returned]

/-- The same for the loop over the sections. -/
theorem sections_invariant (Inv : Catalog → List (Nat × Gadget) → Prop)
    (ok : Nat × Gadget → Prop)
    (hstep : ∀ c l x, Inv c l → ok x →
      ∃ c', find_gadgets_merge x.1 c x.2 = some c' ∧ Inv c' (l ++ [x]))
    (cpu : CPU) (exformat : ExecutableFormat) (depth : Nat) (secs : List Section) :
    ∀ (c : Catalog) (l : List (Nat × Gadget)), Inv c l →
      (∀ x ∈ returned cpu exformat depth secs, ok x) →
      ∃ c', find_gadgets_sections (some cpu) exformat depth c secs = some c' ∧
        Inv c' (l ++ returned cpu exformat depth secs) := by
  induction secs with
  | nil => intro c l hinv _; exact ⟨c, rfl, by simpa [returned] using hinv⟩
  | cons s rest ih =>
    intro c l hinv hok
    rw [returned_cons] at hok ⊢
    obtain ⟨c1, h1, hinv1⟩ := list_invariant Inv ok hstep
      (exformat.raw_offset_to_va s.get_offset s.get_offset)
      (cpu.find_gadget_in_memory s.get_section_buffer s.get_size
        (exformat.raw_offset_to_va s.get_offset s.get_offset) depth) c l hinv
      (fun g hg => hok (exformat.raw_offset_to_va s.get_offset s.get_offset, g)
        (List.mem_append_left _ (List.mem_map.mpr ⟨g, hg, rfl⟩)))
    obtain ⟨c2, h2, hinv2⟩ := ih c1 _ hinv1
      (fun x hx => hok x (List.mem_append_right _ hx))
    refine ⟨c2, ?_, ?_⟩
    · simp [find_gadgets_sections, find_gadgets_section, h1, h2]
    · simpa [List.append_assoc] using hinv2

theorem represents_sections (cpu : CPU) (exformat : ExecutableFormat) (depth : Nat)
    (secs : List Section)
    (hne : ∀ x ∈ returned cpu exformat depth secs, x.2.m_locations ≠ []) :
    ∃ c, find_gadgets_sections (some cpu) exformat depth [] secs = some c ∧
      Represents c (returned cpu exformat depth secs) := by
  obtain ⟨c, h, hrep⟩ := sections_invariant Represents (fun x => x.2.m_locations ≠ [])
    represents_step cpu exformat depth secs [] [] represents_nil hne
  exact ⟨c, h, by simpa using hrep⟩

theorem find_gadgets_eq (p : Program) (cpu : CPU) (exformat : ExecutableFormat)
    (depth : Nat) (hcpu : p.m_cpu = some cpu) (hfmt : p.m_exformat = some exformat) :
    p.find_gadgets depth =
      find_gadgets_sections (some cpu) exformat depth []
        (exformat.get_executables_section p.m_file) := by
  simp [Program.find_gadgets, hfmt, hcpu]

/-! ## Gadgets that carry one location -/

theorem one_location_ne_nil (x : Nat × Gadget) (h : carries_one_location x) :
    x.2.m_locations ≠ [] := by
  obtain ⟨o, ho⟩ := h
  simp [ho]

theorem one_location_eq (x : Nat × Gadget) (h : carries_one_location x) :
    x.2.m_locations = [appended_location x] := by
  obtain ⟨o, ho⟩ := h
  simp [appended_location, Gadget.get_first_offset, ho]

theorem merged_entry_eq_none_iff (l : List (Nat × Gadget)) (T : String) :
    merged_entry l T = none ↔ occurrences l T = [] := by
  unfold merged_entry
  cases occurrences l T <;> simp

theorem mem_occurrences (l : List (Nat × Gadget)) (T : String) (x : Nat × Gadget) :
    x ∈ occurrences l T ↔ x ∈ l ∧ x.2.get_disassembly = T := by
  simp [occurrences, List.mem_filter]

theorem occurrences_eq_nil_iff (l : List (Nat × Gadget)) (T : String) :
    occurrences l T = [] ↔ ¬ ∃ x ∈ l, x.2.get_disassembly = T := by
  rw [List.eq_nil_iff_forall_not_mem]
  constructor
  · rintro h ⟨x, hx, hT⟩
    exact h x ((mem_occurrences l T x).mpr ⟨hx, hT⟩)
  · intro h x hx
    exact h ⟨x, ((mem_occurrences l T x).mp hx).1, ((mem_occurrences l T x).mp hx).2⟩

theorem merged_entry_one_location (l : List (Nat × Gadget)) (T : String) (e : Gadget)
    (hone : ∀ x ∈ l, carries_one_location x) (he : merged_entry l T = some e) :
    e.get_disassembly = T ∧
      e.m_locations = (occurrences l T).map appended_location := by
  unfold merged_entry at he
  cases hocc : occurrences l T with
  | nil => rw [hocc] at he; simp at he
  | cons x rest =>
    rw [hocc] at he
    have hx : x ∈ occurrences l T := by rw [hocc]; simp
    have hx' := (mem_occurrences l T x).mp hx
    have h1 := one_location_eq x (hone x hx'.1)
    simp only [Option.some.injEq] at he
    subst he
    exact ⟨hx'.2, by simp [h1]⟩

theorem mem_keys_iff_returned (c : Catalog) (l : List (Nat × Gadget)) (T : String)
    (hrep : Represents c l) :
    T ∈ Catalog.keys c ↔ ∃ x ∈ l, x.2.get_disassembly = T := by
  rw [← not_iff_not, ← Catalog.find_eq_none_iff, hrep.2, merged_entry_eq_none_iff,
    occurrences_eq_nil_iff]

theorem map_appended_eq_flatMap (l : List (Nat × Gadget))
    (hone : ∀ x ∈ l, carries_one_location x) :
    l.map appended_location = l.flatMap fun x => x.2.m_locations := by
  induction l with
  | nil => simp
  | cons x t ih =>
    have hx := one_location_eq x (hone x (by simp))
    have ht := ih (fun y hy => hone y (List.mem_cons_of_mem _ hy))
    simp [hx, ht]

theorem perm_pair {α : Type} (l : List α) (a b : α) (hlen : l.length = 2)
    (ha : a ∈ l) (hb : b ∈ l) (hab : a ≠ b) : l.Perm [a, b] := by
  match l, hlen with
  | [x, y], _ =>
    simp only [List.mem_cons, List.mem_singleton, List.not_mem_nil, or_false] at ha hb
    rcases ha with rfl | rfl
    · rcases hb with rfl | rfl
      · exact absurd rfl hab
      · exact List.Perm.refl _
    · rcases hb with rfl | rfl
      · exact List.Perm.swap _ _ _
      · exact absurd rfl hab

theorem returned_at_mem (l : List (Nat × Gadget)) (T : String) (O B : Nat)
    (hone : ∀ x ∈ l, carries_one_location x) (h : returned_at l T O B) :
    (O, B) ∈ (occurrences l T).map appended_location := by
  obtain ⟨x, hx, hT, hloc⟩ := h
  have h1 := one_location_eq x (hone x hx)
  rw [hloc] at h1
  have h2 : appended_location x = (O, B) := by
    simpa using h1.symm
  exact List.mem_map.mpr ⟨x, (mem_occurrences l T x).mpr ⟨hx, hT⟩, h2⟩

/-! ## Number of locations -/

theorem total_place (e : String × Gadget) (m : Catalog) :
    total_locations (Catalog.place e m) = total_locations m + e.2.m_locations.length := by
  induction m with
  | nil => simp [Catalog.place, total_locations]
  | cons q t ih =>
    have ih' : (List.map (fun e => e.2.m_locations.length) (Catalog.place e t)).sum =
        (List.map (fun e => e.2.m_locations.length) t).sum + e.2.m_locations.length := ih
    by_cases hl : key_less e.1 q.1
    · simp [Catalog.place, hl, total_locations]; omega
    · simp [Catalog.place, hl, total_locations, ih']; omega

theorem total_modify (k : String) (f : Gadget → Gadget) (m : Catalog)
    (hk : k ∈ Catalog.keys m)
    (hf : ∀ g, (f g).m_locations.length = g.m_locations.length + 1) :
    total_locations (Catalog.modify k f m) = total_locations m + 1 := by
  induction m with
  | nil => simp [Catalog.keys] at hk
  | cons q t ih =>
    by_cases hq : q.1 = k
    · simp [Catalog.modify, hq, total_locations, hf]; omega
    · have hk' : k ∈ Catalog.keys t := by
        have : k = q.1 ∨ k ∈ Catalog.keys t := by simpa [Catalog.keys] using hk
        rcases this with h | h
        · exact absurd h.symm hq
        · exact h
      have ih' : (List.map (fun e => e.2.m_locations.length) (Catalog.modify k f t)).sum =
          (List.map (fun e => e.2.m_locations.length) t).sum + 1 := ih hk'
      simp [Catalog.modify, hq, total_locations, ih']; omega

theorem total_step (c : Catalog) (l : List (Nat × Gadget)) (x : Nat × Gadget)
    (hinv : Represents c l ∧ total_locations c = l.length)
    (hx : carries_one_location x) :
    ∃ c', find_gadgets_merge x.1 c x.2 = some c' ∧
      (Represents c' (l ++ [x]) ∧ total_locations c' = (l ++ [x]).length) := by
  obtain ⟨c', hc', hrep'⟩ := represents_step c l x hinv.1 (one_location_ne_nil x hx)
  refine ⟨c', hc', hrep', ?_⟩
  obtain ⟨o, ho⟩ := first_offset_of_ne_nil x.2 (one_location_ne_nil x hx)
  have hlen : x.2.m_locations.length = 1 := by
    obtain ⟨o', ho'⟩ := hx
    simp [ho']
  by_cases hk : x.2.get_disassembly ∈ Catalog.keys c
  · rw [merge_present x.1 c x.2 o hk ho] at hc'
    simp only [Option.some.injEq] at hc'
    rw [← hc', total_modify _ _ c hk (by intro g; simp [Gadget.add_new_one]), hinv.2]
    simp
  · rw [merge_absent x.1 c x.2 hk] at hc'
    simp only [Option.some.injEq] at hc'
    have hnone : Catalog.find c x.2.get_disassembly = none :=
      (Catalog.find_eq_none_iff c _).mpr hk
    rw [← hc']
    simp only [Catalog.insert, hnone, Option.isSome_none, Bool.false_eq_true, if_false]
    rw [total_place, hinv.2, hlen]
    simp

theorem one_location_run (cpu : CPU) (exformat : ExecutableFormat) (depth : Nat)
    (secs : List Section)
    (hone : ∀ x ∈ returned cpu exformat depth secs, carries_one_location x) :
    ∃ c, find_gadgets_sections (some cpu) exformat depth [] secs = some c ∧
      Represents c (returned cpu exformat depth secs) ∧
      total_locations c = (returned cpu exformat depth secs).length := by
  obtain ⟨c, h, hinv⟩ := sections_invariant
    (fun c l => Represents c l ∧ total_locations c = l.length) carries_one_location
    total_step cpu exformat depth secs [] [] ⟨represents_nil, by simp [total_locations]⟩ hone
  exact ⟨c, h, by simpa using hinv⟩

theorem returned_congr (cpu : CPU) (f f' : ExecutableFormat) (depth : Nat)
    (secs : List Section) (h : f'.raw_offset_to_va = f.raw_offset_to_va) :
    returned cpu f' depth secs = returned cpu f depth secs := by
  simp [returned, h]

theorem returned_perm (cpu : CPU) (f : ExecutableFormat) (depth : Nat)
    (secs secs' : List Section) (h : secs.Perm secs') :
    (returned cpu f depth secs).Perm (returned cpu f depth secs') :=
  List.Perm.flatMap_right _ h

/-! ## The claims about `find_gadgets` -/

/-- C1, merge correctness of `Program::find_gadgets`: when every returned gadget
carries its one location (raw offset, virtual base of the section searched) and
the text `T` is returned at `(O1, B1)` and at `(O2, B2)`, in two different
sections or at two offsets of one section, the run returns a catalog with
exactly one entry for `T`, whose locations contain both; when `T` is returned
exactly twice the locations are exactly these two. -/
theorem find_gadgets_merge_correctness (p : Program) (cpu : CPU)
    (exformat : ExecutableFormat) (depth : Nat) (T : String) (O1 B1 O2 B2 : Nat)
    (hcpu : p.m_cpu = some cpu) (hfmt : p.m_exformat = some exformat)
    (hone : ∀ x ∈ returned cpu exformat depth (exformat.get_executables_section p.m_file),
      carries_one_location x)
    (h1 : returned_at (returned cpu exformat depth
      (exformat.get_executables_section p.m_file)) T O1 B1)
    (h2 : returned_at (returned cpu exformat depth
      (exformat.get_executables_section p.m_file)) T O2 B2)
    (hne : B1 ≠ B2 ∨ (B1 = B2 ∧ O1 ≠ O2)) :
    ∃ c e, p.find_gadgets depth = some c ∧ Catalog.count c T = 1 ∧
      Catalog.find c T = some e ∧ e.get_disassembly = T ∧
      (O1, B1) ∈ e.m_locations ∧ (O2, B2) ∈ e.m_locations ∧
      ((occurrences (returned cpu exformat depth
          (exformat.get_executables_section p.m_file)) T).length = 2 →
        e.m_locations.Perm [(O1, B1), (O2, B2)]) := by
  obtain ⟨c, hrun, hrep, _⟩ := one_location_run cpu exformat depth
    (exformat.get_executables_section p.m_file) hone
  have hkey : T ∈ Catalog.keys c := by
    rw [mem_keys_iff_returned c _ T hrep]
    obtain ⟨x, hx, hT, _⟩ := h1
    exact ⟨x, hx, hT⟩
  have hsome := (Catalog.find_isSome_iff_mem_keys c T).mpr hkey
  obtain ⟨e, he⟩ := Option.isSome_iff_exists.mp hsome
  have hme : merged_entry (returned cpu exformat depth
      (exformat.get_executables_section p.m_file)) T = some e := by
    rw [← hrep.2]; exact he
  obtain ⟨hT, hlocs⟩ := merged_entry_one_location _ T e hone hme
  have hm1 : (O1, B1) ∈ e.m_locations := by
    rw [hlocs]; exact returned_at_mem _ T O1 B1 hone h1
  have hm2 : (O2, B2) ∈ e.m_locations := by
    rw [hlocs]; exact returned_at_mem _ T O2 B2 hone h2
  refine ⟨c, e, ?_, (Catalog.count_eq_one_iff c T hrep.1).mpr hkey, he, hT, hm1, hm2, ?_⟩
  · rw [find_gadgets_eq p cpu exformat depth hcpu hfmt]; exact hrun
  · intro hlen
    have hdiff : ((O1, B1) : Location) ≠ (O2, B2) := by
      intro heq
      have ho : O1 = O2 := congrArg Prod.fst heq
      have hb : B1 = B2 := congrArg Prod.snd heq
      rcases hne with h | h
      · exact h hb
      · exact h.2 ho
    exact perm_pair e.m_locations _ _ (by rw [hlocs, List.length_map]; exact hlen)
      hm1 hm2 hdiff

/-- Witness of C1: `pop eax; ret` at `0x100` and `0x340` of one section with
virtual base `0x1000` gives the single entry with both locations. -/
theorem find_gadgets_merge_correctness_witness :
    (∀ x ∈ returned scenario_cpu scenario_format 2
      (scenario_format.get_executables_section scenario_program.m_file),
      carries_one_location x) ∧
    returned_at (returned scenario_cpu scenario_format 2
      (scenario_format.get_executables_section scenario_program.m_file))
      "pop eax; ret" 0x100 0x1000 ∧
    returned_at (returned scenario_cpu scenario_format 2
      (scenario_format.get_executables_section scenario_program.m_file))
      "pop eax; ret" 0x340 0x1000 ∧
    (∃ c e, scenario_program.find_gadgets 2 = some c ∧
      Catalog.count c "pop eax; ret" = 1 ∧
      Catalog.find c "pop eax; ret" = some e ∧ e.get_disassembly = "pop eax; ret" ∧
      (0x100, 0x1000) ∈ e.m_locations ∧ (0x340, 0x1000) ∈ e.m_locations ∧
      ((occurrences (returned scenario_cpu scenario_format 2
          (scenario_format.get_executables_section scenario_program.m_file))
          "pop eax; ret").length = 2 →
        e.m_locations.Perm [(0x100, 0x1000), (0x340, 0x1000)])) ∧
    scenario_program.find_gadgets 2 =
      some [("pop eax; ret", ⟨"pop eax; ret",
        [⟨"pop eax", false, false⟩, ⟨"ret", true, true⟩],
        [(0x100, 0x1000), (0x340, 0x1000)]⟩)] :=
  ⟨by decide, by decide, by decide,
    find_gadgets_merge_correctness scenario_program scenario_cpu scenario_format 2
      "pop eax; ret" 0x100 0x1000 0x340 0x1000 rfl rfl (by decide) (by decide) (by decide)
      (Or.inr ⟨rfl, by decide⟩),
    by decide⟩

/-- C10, no hit is lost or invented by `Program::find_gadgets`: when every
returned gadget carries exactly one location (its first offset, the virtual
base of the section searched), the run returns a catalog whose keys are exactly
the texts returned, the entry of a text lists the locations of the gadgets
returned with that text in processing order (so as many locations as gadgets),
and the catalog holds as many locations as gadgets were returned. -/
theorem find_gadgets_no_hit_lost (p : Program) (cpu : CPU)
    (exformat : ExecutableFormat) (depth : Nat)
    (hcpu : p.m_cpu = some cpu) (hfmt : p.m_exformat = some exformat)
    (hone : ∀ x ∈ returned cpu exformat depth (exformat.get_executables_section p.m_file),
      carries_one_location x) :
    ∃ c, p.find_gadgets depth = some c ∧
      (∀ T, T ∈ Catalog.keys c ↔
        ∃ x ∈ returned cpu exformat depth (exformat.get_executables_section p.m_file),
          x.2.get_disassembly = T) ∧
      (∀ T e, Catalog.find c T = some e →
        e.m_locations = (occurrences (returned cpu exformat depth
          (exformat.get_executables_section p.m_file)) T).flatMap (fun x => x.2.m_locations) ∧
        e.m_locations.length = (occurrences (returned cpu exformat depth
          (exformat.get_executables_section p.m_file)) T).length) ∧
      total_locations c =
        (returned cpu exformat depth (exformat.get_executables_section p.m_file)).length := by
  obtain ⟨c, hrun, hrep, htotal⟩ := one_location_run cpu exformat depth
    (exformat.get_executables_section p.m_file) hone
  refine ⟨c, ?_, fun T => mem_keys_iff_returned c _ T hrep, ?_, htotal⟩
  · rw [find_gadgets_eq p cpu exformat depth hcpu hfmt]; exact hrun
  · intro T e he
    have hme : merged_entry (returned cpu exformat depth
        (exformat.get_executables_section p.m_file)) T = some e := by
      rw [← hrep.2]; exact he
    obtain ⟨_, hlocs⟩ := merged_entry_one_location _ T e hone hme
    have hocc : ∀ x ∈ occurrences (returned cpu exformat depth
        (exformat.get_executables_section p.m_file)) T, carries_one_location x :=
      fun x hx => hone x ((mem_occurrences _ T x).mp hx).1
    refine ⟨?_, ?_⟩
    · rw [hlocs, map_appended_eq_flatMap _ hocc]
    · rw [hlocs, List.length_map]

/-- Witness of C10: two sections, each returning `ret` and `pop eax; ret`. -/
theorem find_gadgets_no_hit_lost_witness :
    (∀ x ∈ returned two_gadget_cpu format_ab 2
      (format_ab.get_executables_section (IfStream.mk [] 0)), carries_one_location x) ∧
    (∃ c, Program.find_gadgets ⟨⟨[], 0⟩, some two_gadget_cpu, some format_ab⟩ 2 = some c ∧
      (∀ T, T ∈ Catalog.keys c ↔
        ∃ x ∈ returned two_gadget_cpu format_ab 2
          (format_ab.get_executables_section (IfStream.mk [] 0)),
          x.2.get_disassembly = T) ∧
      (∀ T e, Catalog.find c T = some e →
        e.m_locations = (occurrences (returned two_gadget_cpu format_ab 2
          (format_ab.get_executables_section (IfStream.mk [] 0))) T).flatMap
            (fun x => x.2.m_locations) ∧
        e.m_locations.length = (occurrences (returned two_gadget_cpu format_ab 2
          (format_ab.get_executables_section (IfStream.mk [] 0))) T).length) ∧
      total_locations c =
        (returned two_gadget_cpu format_ab 2
          (format_ab.get_executables_section (IfStream.mk [] 0))).length) ∧
    Program.find_gadgets ⟨⟨[], 0⟩, some two_gadget_cpu, some format_ab⟩ 2 =
      some [("pop eax; ret", ⟨"pop eax; ret",
          [⟨"pop eax", false, false⟩, ⟨"ret", true, true⟩],
          [(0x20, 0x1000), (0x20, 0x2000)]⟩),
        ("ret", ⟨"ret", [⟨"ret", true, true⟩], [(0x10, 0x1000), (0x10, 0x2000)]⟩)] :=
  ⟨by decide,
    find_gadgets_no_hit_lost ⟨⟨[], 0⟩, some two_gadget_cpu, some format_ab⟩
      two_gadget_cpu format_ab 2 rfl rfl (by decide),
    by decide⟩

/-- C3 as amended, section order independence of `Program::find_gadgets`: for
two runs with the same CPU and the same address mapping whose section lists are
permutations of each other, when every returned gadget carries exactly one
location (its first offset, the virtual base of the section searched), both
runs return a catalog, the two catalogs have the same keys, and under every key
the same locations up to their order. -/
theorem find_gadgets_section_order (p p' : Program) (cpu : CPU)
    (f f' : ExecutableFormat) (depth : Nat)
    (hcpu : p.m_cpu = some cpu) (hcpu' : p'.m_cpu = some cpu)
    (hfmt : p.m_exformat = some f) (hfmt' : p'.m_exformat = some f')
    (hva : f'.raw_offset_to_va = f.raw_offset_to_va)
    (hperm : (f.get_executables_section p.m_file).Perm
      (f'.get_executables_section p'.m_file))
    (hone : ∀ x ∈ returned cpu f depth (f.get_executables_section p.m_file),
      carries_one_location x) :
    ∃ c c', p.find_gadgets depth = some c ∧ p'.find_gadgets depth = some c' ∧
      (∀ T, T ∈ Catalog.keys c ↔ T ∈ Catalog.keys c') ∧
      ∀ T e, Catalog.find c T = some e →
        ∃ e', Catalog.find c' T = some e' ∧ e.m_locations.Perm e'.m_locations ∧
          ∀ loc, loc ∈ e.m_locations ↔ loc ∈ e'.m_locations := by
  have hret : (returned cpu f depth (f.get_executables_section p.m_file)).Perm
      (returned cpu f' depth (f'.get_executables_section p'.m_file)) := by
    rw [returned_congr cpu f f' depth _ hva]
    exact returned_perm cpu f depth _ _ hperm
  have hone' : ∀ x ∈ returned cpu f' depth (f'.get_executables_section p'.m_file),
      carries_one_location x := fun x hx => hone x (hret.mem_iff.mpr hx)
  obtain ⟨c, hrun, hrep, _⟩ := one_location_run cpu f depth
    (f.get_executables_section p.m_file) hone
  obtain ⟨c', hrun', hrep', _⟩ := one_location_run cpu f' depth
    (f'.get_executables_section p'.m_file) hone'
  refine ⟨c, c', ?_, ?_, ?_, ?_⟩
  · rw [find_gadgets_eq p cpu f depth hcpu hfmt]; exact hrun
  · rw [find_gadgets_eq p' cpu f' depth hcpu' hfmt']; exact hrun'
  · intro T
    rw [mem_keys_iff_returned c _ T hrep, mem_keys_iff_returned c' _ T hrep']
    constructor
    · rintro ⟨x, hx, hT⟩; exact ⟨x, hret.mem_iff.mp hx, hT⟩
    · rintro ⟨x, hx, hT⟩; exact ⟨x, hret.mem_iff.mpr hx, hT⟩
  · intro T e he
    have hkey : T ∈ Catalog.keys c :=
      (Catalog.find_isSome_iff_mem_keys c T).mp (by rw [he]; rfl)
    have hkey' : T ∈ Catalog.keys c' := by
      rw [mem_keys_iff_returned c' _ T hrep']
      obtain ⟨x, hx, hT⟩ := (mem_keys_iff_returned c _ T hrep).mp hkey
      exact ⟨x, hret.mem_iff.mp hx, hT⟩
    obtain ⟨e', he'⟩ := Option.isSome_iff_exists.mp
      ((Catalog.find_isSome_iff_mem_keys c' T).mpr hkey')
    have hme : merged_entry (returned cpu f depth
        (f.get_executables_section p.m_file)) T = some e := by
      rw [← hrep.2]; exact he
    have hme' : merged_entry (returned cpu f' depth
        (f'.get_executables_section p'.m_file)) T = some e' := by
      rw [← hrep'.2]; exact he'
    obtain ⟨_, hlocs⟩ := merged_entry_one_location _ T e hone hme
    obtain ⟨_, hlocs'⟩ := merged_entry_one_location _ T e' hone' hme'
    have hp : e.m_locations.Perm e'.m_locations := by
      rw [hlocs, hlocs']
      exact (List.Perm.filter _ hret).map _
    exact ⟨e', he', hp, fun loc => hp.mem_iff⟩

/-- Witness of C3 as amended: the sections `.text` and `.init` in both orders. -/
theorem find_gadgets_section_order_witness :
    ((format_ab.get_executables_section (IfStream.mk [] 0)).Perm
      (format_ba.get_executables_section (IfStream.mk [] 0))) ∧
    (∀ x ∈ returned two_gadget_cpu format_ab 2
      (format_ab.get_executables_section (IfStream.mk [] 0)), carries_one_location x) ∧
    (∃ c c', Program.find_gadgets ⟨⟨[], 0⟩, some two_gadget_cpu, some format_ab⟩ 2 = some c ∧
      Program.find_gadgets ⟨⟨[], 0⟩, some two_gadget_cpu, some format_ba⟩ 2 = some c' ∧
      (∀ T, T ∈ Catalog.keys c ↔ T ∈ Catalog.keys c') ∧
      ∀ T e, Catalog.find c T = some e →
        ∃ e', Catalog.find c' T = some e' ∧ e.m_locations.Perm e'.m_locations ∧
          ∀ loc, loc ∈ e.m_locations ↔ loc ∈ e'.m_locations) :=
  ⟨List.Perm.swap _ _ _, by decide,
    find_gadgets_section_order ⟨⟨[], 0⟩, some two_gadget_cpu, some format_ab⟩
      ⟨⟨[], 0⟩, some two_gadget_cpu, some format_ba⟩ two_gadget_cpu format_ab format_ba 2
      rfl rfl rfl rfl rfl (List.Perm.swap _ _ _) (by decide)⟩

/-- Counterexample to C3 as stated: with a search whose gadget for the section
at `0x1000` carries the two locations `(1, 0x1000)` and `(2, 0x1000)`, the two
section orders give entries for `ret` with different location sets. -/
theorem find_gadgets_section_order_counterexample :
    ((format_ab.get_executables_section (IfStream.mk [] 0)).Perm
      (format_ba.get_executables_section (IfStream.mk [] 0))) ∧
    Program.find_gadgets ⟨⟨[], 0⟩, some two_location_cpu, some format_ab⟩ 1 =
      some [("ret", ⟨"ret", [⟨"ret", true, true⟩],
        [(1, 0x1000), (2, 0x1000), (3, 0x2000)]⟩)] ∧
    Program.find_gadgets ⟨⟨[], 0⟩, some two_location_cpu, some format_ba⟩ 1 =
      some [("ret", ⟨"ret", [⟨"ret", true, true⟩], [(3, 0x2000), (1, 0x1000)]⟩)] ∧
    ¬ (∀ loc : Location, loc ∈ [(1, 0x1000), (2, 0x1000), (3, 0x2000)] ↔
        loc ∈ [((3, 0x2000) : Location), (1, 0x1000)]) :=
  ⟨List.Perm.swap _ _ _, by decide, by decide, fun h => by
    have := (h (2, 0x1000)).mp (by decide)
    revert this
    decide⟩

/-! ## The merge step -/

theorem mem_place (e : String × Gadget) (m : Catalog) (q : String × Gadget) :
    q ∈ Catalog.place e m ↔ q = e ∨ q ∈ m := by
  induction m with
  | nil => simp [Catalog.place]
  | cons r t ih =>
    by_cases hl : key_less e.1 r.1
    · simp [Catalog.place, hl]
    · simp only [Catalog.place, hl, if_false, List.mem_cons, ih]
      tauto

theorem mem_modify (k : String) (f : Gadget → Gadget) (m : Catalog) (q : String × Gadget)
    (h : q ∈ Catalog.modify k f m) :
    q ∈ m ∨ ∃ r ∈ m, r.1 = k ∧ q = (r.1, f r.2) := by
  induction m with
  | nil => simp [Catalog.modify] at h
  | cons r t ih =>
    by_cases hr : r.1 = k
    · simp only [Catalog.modify, hr, if_true, List.mem_cons] at h
      rcases h with h | h
      · exact Or.inr ⟨r, by simp, hr, by rw [h, hr]⟩
      · exact Or.inl (List.mem_cons_of_mem _ h)
    · simp only [Catalog.modify, hr, if_false, List.mem_cons] at h
      rcases h with h | h
      · exact Or.inl (by simp [h])
      · rcases ih h with h' | ⟨r', hr', hk, hq⟩
        · exact Or.inl (List.mem_cons_of_mem _ h')
        · exact Or.inr ⟨r', List.mem_cons_of_mem _ hr', hk, hq⟩

/-- C2 as amended, the merge rule of one step of the loop in
`Program::find_gadgets`: if the catalog already holds an entry with the text of
the incoming gadget `G`, and `G` has a first offset, then afterwards that entry
is the old entry with the one location (first raw offset of `G`, virtual base
of the section being processed) appended, `G` itself is not inserted, and the
keys and every other entry are as before; otherwise `G` is inserted as a new
entry under its text and every other entry is as before. -/
theorem find_gadgets_merge_rule (va_section : Nat) (c : Catalog) (G : Gadget) :
    (∀ e o, Catalog.find c G.get_disassembly = some e → G.get_first_offset = some o →
      ∃ c', find_gadgets_merge va_section c G = some c' ∧
        Catalog.find c' G.get_disassembly = some (e.add_new_one o va_section) ∧
        (e.add_new_one o va_section).m_locations = e.m_locations ++ [(o, va_section)] ∧
        Catalog.keys c' = Catalog.keys c ∧
        ∀ k, k ≠ G.get_disassembly → Catalog.find c' k = Catalog.find c k) ∧
    (Catalog.find c G.get_disassembly = none →
      ∃ c', find_gadgets_merge va_section c G = some c' ∧
        Catalog.find c' G.get_disassembly = some G ∧
        (Catalog.keys c').Perm (G.get_disassembly :: Catalog.keys c) ∧
        ∀ k, k ≠ G.get_disassembly → Catalog.find c' k = Catalog.find c k) := by
  constructor
  · intro e o he ho
    have hk : G.get_disassembly ∈ Catalog.keys c :=
      (Catalog.find_isSome_iff_mem_keys c _).mp (by rw [he]; rfl)
    refine ⟨_, merge_present va_section c G o hk ho, ?_, rfl, Catalog.keys_modify _ _ c, ?_⟩
    · rw [Catalog.find_modify]; simp [he]
    · intro k hne
      rw [Catalog.find_modify]; simp [hne]
  · intro hnone
    have hk : G.get_disassembly ∉ Catalog.keys c := (Catalog.find_eq_none_iff c _).mp hnone
    have hnone' : Catalog.find c (G.get_disassembly, G).1 = none := hnone
    refine ⟨_, merge_absent va_section c G hk, ?_, Catalog.keys_insert c _ hnone', ?_⟩
    · rw [Catalog.find_insert c _ _ hnone']; simp
    · intro k hne
      rw [Catalog.find_insert c _ _ hnone']; simp [hne]

/-- Witness of C2 as amended: `ret` at `(5, 0x1000)` meets the catalog that
holds `ret` at `(1, 0x1000)`, and meets the empty catalog. -/
theorem find_gadgets_merge_rule_witness :
    (Catalog.find [("ret", ret_only 1 0x1000)] (ret_only 5 0x1000).get_disassembly =
        some (ret_only 1 0x1000) ∧
      (ret_only 5 0x1000).get_first_offset = some 5 ∧
      ∃ c', find_gadgets_merge 0x1000 [("ret", ret_only 1 0x1000)] (ret_only 5 0x1000) =
          some c' ∧
        Catalog.find c' (ret_only 5 0x1000).get_disassembly =
          some ((ret_only 1 0x1000).add_new_one 5 0x1000) ∧
        ((ret_only 1 0x1000).add_new_one 5 0x1000).m_locations =
          (ret_only 1 0x1000).m_locations ++ [(5, 0x1000)] ∧
        Catalog.keys c' = Catalog.keys [("ret", ret_only 1 0x1000)] ∧
        ∀ k, k ≠ (ret_only 5 0x1000).get_disassembly →
          Catalog.find c' k = Catalog.find [("ret", ret_only 1 0x1000)] k) ∧
    (Catalog.find [] (ret_only 5 0x1000).get_disassembly = none ∧
      ∃ c', find_gadgets_merge 0x1000 [] (ret_only 5 0x1000) = some c' ∧
        Catalog.find c' (ret_only 5 0x1000).get_disassembly = some (ret_only 5 0x1000) ∧
        (Catalog.keys c').Perm ((ret_only 5 0x1000).get_disassembly :: Catalog.keys []) ∧
        ∀ k, k ≠ (ret_only 5 0x1000).get_disassembly →
          Catalog.find c' k = Catalog.find [] k) :=
  ⟨⟨by decide, by decide,
      (find_gadgets_merge_rule 0x1000 [("ret", ret_only 1 0x1000)] (ret_only 5 0x1000)).1
        (ret_only 1 0x1000) 5 (by decide) (by decide)⟩,
    ⟨by decide, (find_gadgets_merge_rule 0x1000 [] (ret_only 5 0x1000)).2 (by decide)⟩⟩

/-- Counterexample to C2 as stated: the incoming `ret` has the raw offsets 5
and 9 in the section with virtual base `0x1000`; the catalog already holds
`ret`.  After the step the entry has gained `(5, 0x1000)` only: the location
`(9, 0x1000)` of the incoming gadget is not in it. -/
theorem find_gadgets_merge_rule_counterexample :
    find_gadgets_merge 0x1000 [("ret", ret_only 1 0x1000)]
        ⟨"ret", [⟨"ret", true, true⟩], [(5, 0x1000), (9, 0x1000)]⟩ =
      some [("ret", ⟨"ret", [⟨"ret", true, true⟩], [(1, 0x1000), (5, 0x1000)]⟩)] ∧
    ((9, 0x1000) : Location) ∈ [((5, 0x1000) : Location), (9, 0x1000)] ∧
    ((9, 0x1000) : Location) ∉ [((1, 0x1000) : Location), (5, 0x1000)] := by
  decide

/-- C9, the catalog invariant is kept by every merge step of
`Program::find_gadgets`: for a catalog with unique keys, each equal to the text
of its gadget, and non-empty location sets, and an incoming gadget with a
non-empty location set, the step returns a catalog with the same three
properties; no key is removed; every entry keeps its locations as a prefix of
its new locations; and every entry under a text other than the incoming one is
unchanged. -/
theorem find_gadgets_merge_invariant (va_section : Nat) (c : Catalog) (G : Gadget)
    (hinv : catalog_invariant c) (hG : G.m_locations ≠ []) :
    ∃ c', find_gadgets_merge va_section c G = some c' ∧ catalog_invariant c' ∧
      (∀ k ∈ Catalog.keys c, k ∈ Catalog.keys c') ∧
      (∀ k e, Catalog.find c k = some e →
        ∃ e', Catalog.find c' k = some e' ∧ e.m_locations <+: e'.m_locations ∧
          ∀ loc ∈ e.m_locations, loc ∈ e'.m_locations) ∧
      ∀ k, k ≠ G.get_disassembly → Catalog.find c' k = Catalog.find c k := by
  obtain ⟨o, ho⟩ := first_offset_of_ne_nil G hG
  obtain ⟨hnd, hkey, hloc⟩ := hinv
  by_cases hk : G.get_disassembly ∈ Catalog.keys c
  · refine ⟨_, merge_present va_section c G o hk ho, ⟨?_, ?_, ?_⟩, ?_, ?_, ?_⟩
    · rw [Catalog.keys_modify]; exact hnd
    · intro q hq
      rcases mem_modify _ _ c q hq with h | ⟨r, hr, _, rfl⟩
      · exact hkey q h
      · exact hkey r hr
    · intro q hq
      rcases mem_modify _ _ c q hq with h | ⟨r, hr, _, rfl⟩
      · exact hloc q h
      · simp [Gadget.add_new_one]
    · intro k hk'; rw [Catalog.keys_modify]; exact hk'
    · intro k e he
      rw [Catalog.find_modify]
      by_cases hkk : k = G.get_disassembly
      · subst hkk
        refine ⟨e.add_new_one o va_section, by simp [he], ?_, ?_⟩
        · exact ⟨[(o, va_section)], rfl⟩
        · intro loc hl; simp [Gadget.add_new_one, hl]
      · exact ⟨e, by simp [hkk, he], List.prefix_refl _, fun _ h => h⟩
    · intro k hne
      rw [Catalog.find_modify]; simp [hne]
  · have hnone : Catalog.find c (G.get_disassembly, G).1 = none :=
      (Catalog.find_eq_none_iff c _).mpr hk
    have hperm := Catalog.keys_insert c (G.get_disassembly, G) hnone
    refine ⟨_, merge_absent va_section c G hk, ⟨?_, ?_, ?_⟩, ?_, ?_, ?_⟩
    · rw [hperm.nodup_iff]; exact List.nodup_cons.mpr ⟨hk, hnd⟩
    · intro q hq
      simp only [Catalog.insert, hnone, Option.isSome_none, Bool.false_eq_true,
        if_false] at hq
      rcases (mem_place _ c q).mp hq with rfl | h
      · rfl
      · exact hkey q h
    · intro q hq
      simp only [Catalog.insert, hnone, Option.isSome_none, Bool.false_eq_true,
        if_false] at hq
      rcases (mem_place _ c q).mp hq with rfl | h
      · exact hG
      · exact hloc q h
    · intro k hk'
      exact hperm.mem_iff.mpr (List.mem_cons_of_mem _ hk')
    · intro k e he
      have hkk : k ≠ G.get_disassembly := by
        intro h; subst h
        have : Catalog.find c G.get_disassembly = none := hnone
        rw [this] at he; simp at he
      exact ⟨e, by rw [Catalog.find_insert c _ _ hnone]; simp [hkk, he],
        List.prefix_refl _, fun _ h => h⟩
    · intro k hne
      rw [Catalog.find_insert c _ _ hnone]; simp [hne]

/-- Witness of C9: `ret` at `(5, 0x1000)` meets a catalog holding `ret` and
`pop eax; ret`. -/
theorem find_gadgets_merge_invariant_witness :
    catalog_invariant [("pop eax; ret", pop_eax_ret 2 0x1000), ("ret", ret_only 1 0x1000)] ∧
    (ret_only 5 0x1000).m_locations ≠ [] ∧
    (∃ c', find_gadgets_merge 0x1000
        [("pop eax; ret", pop_eax_ret 2 0x1000), ("ret", ret_only 1 0x1000)]
        (ret_only 5 0x1000) = some c' ∧ catalog_invariant c' ∧
      (∀ k ∈ Catalog.keys
          [("pop eax; ret", pop_eax_ret 2 0x1000), ("ret", ret_only 1 0x1000)],
        k ∈ Catalog.keys c') ∧
      (∀ k e, Catalog.find
          [("pop eax; ret", pop_eax_ret 2 0x1000), ("ret", ret_only 1 0x1000)] k = some e →
        ∃ e', Catalog.find c' k = some e' ∧ e.m_locations <+: e'.m_locations ∧
          ∀ loc ∈ e.m_locations, loc ∈ e'.m_locations) ∧
      ∀ k, k ≠ (ret_only 5 0x1000).get_disassembly →
        Catalog.find c' k = Catalog.find
          [("pop eax; ret", pop_eax_ret 2 0x1000), ("ret", ret_only 1 0x1000)] k) ∧
    find_gadgets_merge 0x1000
        [("pop eax; ret", pop_eax_ret 2 0x1000), ("ret", ret_only 1 0x1000)]
        (ret_only 5 0x1000) =
      some [("pop eax; ret", pop_eax_ret 2 0x1000),
        ("ret", ⟨"ret", [⟨"ret", true, true⟩], [(1, 0x1000), (5, 0x1000)]⟩)] :=
  ⟨by decide, by decide,
    find_gadgets_merge_invariant 0x1000
      [("pop eax; ret", pop_eax_ret 2 0x1000), ("ret", ret_only 1 0x1000)]
      (ret_only 5 0x1000) (by decide) (by decide),
    by decide⟩

/-! ## Properties of the stored gadgets -/

theorem merge_entries (P : Gadget → Prop)
    (hadd : ∀ g o va, P g → P (g.add_new_one o va))
    (va : Nat) (c : Catalog) (g : Gadget) (c' : Catalog)
    (hc : ∀ e ∈ c, P e.2) (hg : P g) (h : find_gadgets_merge va c g = some c') :
    ∀ e ∈ c', P e.2 := by
  unfold find_gadgets_merge at h
  split at h
  · cases ho : g.get_first_offset with
    | none => rw [ho] at h; simp at h
    | some o =>
      rw [ho] at h
      simp only [Option.some.injEq] at h
      subst h
      intro e he
      rcases mem_modify _ _ c e he with h' | ⟨r, hr, _, rfl⟩
      · exact hc e h'
      · exact hadd _ _ _ (hc r hr)
  · simp only [Option.some.injEq] at h
    subst h
    intro e he
    unfold Catalog.insert at he
    split at he
    · exact hc e he
    · rcases (mem_place _ c e).mp he with rfl | h'
      · exact hg
      · exact hc e h'

theorem list_entries (P : Gadget → Prop)
    (hadd : ∀ g o va, P g → P (g.add_new_one o va)) (va : Nat) (gs : List Gadget) :
    ∀ (c c' : Catalog), (∀ e ∈ c, P e.2) → (∀ g ∈ gs, P g) →
      find_gadgets_list va c gs = some c' → ∀ e ∈ c', P e.2 := by
  induction gs with
  | nil =>
    intro c c' hc _ h
    simp only [find_gadgets_list, Option.some.injEq] at h
    subst h; exact hc
  | cons g rest ih =>
    intro c c' hc hgs h
    simp only [find_gadgets_list] at h
    cases hm : find_gadgets_merge va c g with
    | none => rw [hm] at h; simp at h
    | some c1 =>
      rw [hm] at h
      exact ih c1 c' (merge_entries P hadd va c g c1 hc (hgs g (by simp)) hm)
        (fun g' hg' => hgs g' (List.mem_cons_of_mem _ hg')) h

theorem sections_entries (P : Gadget → Prop)
    (hadd : ∀ g o va, P g → P (g.add_new_one o va))
    (cpu : CPU) (exformat : ExecutableFormat) (depth : Nat) (secs : List Section) :
    ∀ (c c' : Catalog), (∀ e ∈ c, P e.2) →
      (∀ x ∈ returned cpu exformat depth secs, P x.2) →
      find_gadgets_sections (some cpu) exformat depth c secs = some c' →
      ∀ e ∈ c', P e.2 := by
  induction secs with
  | nil =>
    intro c c' hc _ h
    simp only [find_gadgets_sections, Option.some.injEq] at h
    subst h; exact hc
  | cons s rest ih =>
    intro c c' hc hret h
    rw [returned_cons] at hret
    simp only [find_gadgets_sections] at h
    cases hs : find_gadgets_section (some cpu) exformat depth c s with
    | none => rw [hs] at h; simp at h
    | some c1 =>
      rw [hs] at h
      have hc1 : ∀ e ∈ c1, P e.2 :=
        list_entries P hadd _ _ c c1 hc
          (fun g hg => hret (exformat.raw_offset_to_va s.get_offset s.get_offset, g)
            (List.mem_append_left _ (List.mem_map.mpr ⟨g, hg, rfl⟩)))
          (by simpa [find_gadgets_section] using hs)
      exact ih c1 c' hc1 (fun x hx => hret x (List.mem_append_right _ hx)) h

theorem mem_returned (cpu : CPU) (exformat : ExecutableFormat) (depth : Nat)
    (secs : List Section) (x : Nat × Gadget) (hx : x ∈ returned cpu exformat depth secs) :
    ∃ s ∈ secs, x.2 ∈ cpu.find_gadget_in_memory s.get_section_buffer s.get_size
      (exformat.raw_offset_to_va s.get_offset s.get_offset) depth := by
  unfold returned at hx
  obtain ⟨s, hs, hx'⟩ := List.mem_flatMap.mp hx
  obtain ⟨g, hg, rfl⟩ := List.mem_map.mp hx'
  exact ⟨s, hs, hg⟩

/-- C8, depth bound and tail invariant at catalog level: if the per-section
search of the CPU, called with depth `d`, returns only gadgets of at most `d`
instructions that satisfy the tail invariant, then every gadget of the catalog
returned by `Program::find_gadgets(max_depth)` has at most `max_depth`
instructions and satisfies the tail invariant, and it has the text and the
instructions of a gadget returned by a per-section search of this run (called
with `max_depth`); and the run does return a catalog when no returned gadget
has an empty location set. -/
theorem find_gadgets_depth_bound (p : Program) (cpu : CPU) (exformat : ExecutableFormat)
    (max_depth : Nat) (hcpu : p.m_cpu = some cpu) (hfmt : p.m_exformat = some exformat)
    (hsearch : ∀ buffer size vaddr d,
      ∀ g ∈ cpu.find_gadget_in_memory buffer size vaddr d,
        g.instruction_count ≤ d ∧ g.tail_invariant) :
    (∀ c, p.find_gadgets max_depth = some c → ∀ e ∈ c,
      e.2.instruction_count ≤ max_depth ∧ e.2.tail_invariant ∧
      ∃ x ∈ returned cpu exformat max_depth (exformat.get_executables_section p.m_file),
        e.2.m_disassembly = x.2.m_disassembly ∧
        e.2.m_instructions = x.2.m_instructions) ∧
    ((∀ x ∈ returned cpu exformat max_depth (exformat.get_executables_section p.m_file),
        x.2.m_locations ≠ []) →
      ∃ c, p.find_gadgets max_depth = some c) := by
  constructor
  · intro c hrun
    rw [find_gadgets_eq p cpu exformat max_depth hcpu hfmt] at hrun
    refine sections_entries
      (fun g => g.instruction_count ≤ max_depth ∧ g.tail_invariant ∧
        ∃ x ∈ returned cpu exformat max_depth (exformat.get_executables_section p.m_file),
          g.m_disassembly = x.2.m_disassembly ∧ g.m_instructions = x.2.m_instructions)
      ?_ cpu exformat max_depth _ [] c (by simp) ?_ hrun
    · intro g o va hg
      exact hg
    · intro x hx
      obtain ⟨s, _, hg⟩ := mem_returned cpu exformat max_depth _ x hx
      have h := hsearch _ _ _ _ x.2 hg
      exact ⟨h.1, h.2, x, hx, rfl, rfl⟩
  · intro hne
    obtain ⟨c, hrun, _⟩ := represents_sections cpu exformat max_depth
      (exformat.get_executables_section p.m_file) hne
    exact ⟨c, by rw [find_gadgets_eq p cpu exformat max_depth hcpu hfmt]; exact hrun⟩

/-- Witness of C8: the run that finds `pop eax; ret` twice, depth 2. -/
theorem find_gadgets_depth_bound_witness :
    (∀ buffer size vaddr d,
      ∀ g ∈ scenario_cpu.find_gadget_in_memory buffer size vaddr d,
        g.instruction_count ≤ d ∧ g.tail_invariant) ∧
    ((∀ c, scenario_program.find_gadgets 2 = some c → ∀ e ∈ c,
      e.2.instruction_count ≤ 2 ∧ e.2.tail_invariant ∧
      ∃ x ∈ returned scenario_cpu scenario_format 2
          (scenario_format.get_executables_section scenario_program.m_file),
        e.2.m_disassembly = x.2.m_disassembly ∧
        e.2.m_instructions = x.2.m_instructions) ∧
    ((∀ x ∈ returned scenario_cpu scenario_format 2
          (scenario_format.get_executables_section scenario_program.m_file),
        x.2.m_locations ≠ []) →
      ∃ c, scenario_program.find_gadgets 2 = some c)) ∧
    (scenario_program.find_gadgets 2).isSome = true :=
  have hsearch : ∀ buffer size vaddr d,
      ∀ g ∈ scenario_cpu.find_gadget_in_memory buffer size vaddr d,
        g.instruction_count ≤ d ∧ g.tail_invariant := by
    intro buffer size vaddr d g hg
    simp only [scenario_cpu] at hg
    by_cases hd : d < 2
    · simp [hd] at hg
    · simp only [hd, if_false, List.mem_cons, List.mem_singleton, List.not_mem_nil,
        or_false] at hg
      have h2 : 2 ≤ d := by omega
      rcases hg with rfl | rfl
      · exact ⟨h2, by simp [Gadget.tail_invariant, pop_eax_ret]⟩
      · exact ⟨h2, by simp [Gadget.tail_invariant, pop_eax_ret]⟩
  ⟨hsearch,
    find_gadgets_depth_bound scenario_program scenario_cpu scenario_format 2 rfl rfl hsearch,
    by decide⟩

/-- C5, empty-input handling of `Program::find_gadgets`: with zero executable
sections the run returns the empty catalog, for every depth; a section whose
search returns no gadget leaves the catalog built so far unchanged, in
particular a section of size 0 when the CPU returns nothing for size 0. -/
theorem find_gadgets_empty_input (p : Program) (cpu : CPU) (exformat : ExecutableFormat)
    (depth : Nat) (c : Catalog) (s : Section) :
    (p.m_exformat = some exformat → exformat.get_executables_section p.m_file = [] →
      p.find_gadgets depth = some []) ∧
    (cpu.find_gadget_in_memory s.get_section_buffer s.get_size
        (exformat.raw_offset_to_va s.get_offset s.get_offset) depth = [] →
      find_gadgets_section (some cpu) exformat depth c s = some c) ∧
    ((∀ buffer vaddr d, cpu.find_gadget_in_memory buffer 0 vaddr d = []) →
      s.get_size = 0 →
      find_gadgets_section (some cpu) exformat depth c s = some c) := by
  refine ⟨?_, ?_, ?_⟩
  · intro hfmt hsec
    simp [Program.find_gadgets, hfmt, hsec, find_gadgets_sections]
  · intro h
    simp [find_gadgets_section, h, find_gadgets_list]
  · intro h hs
    simp [find_gadgets_section, hs, h, find_gadgets_list]

/-- Witness of C5: a format without executable sections, a search that finds
nothing at depth 1, and a section of size 0. -/
theorem find_gadgets_empty_input_witness :
    ((Program.mk ⟨[], 0⟩ (some scenario_cpu) (some no_section_format)).m_exformat =
        some no_section_format ∧
      no_section_format.get_executables_section (IfStream.mk [] 0) = [] ∧
      Program.find_gadgets ⟨⟨[], 0⟩, some scenario_cpu, some no_section_format⟩ 3 = some []) ∧
    (scenario_cpu.find_gadget_in_memory section_a.get_section_buffer section_a.get_size
        (format_ab.raw_offset_to_va section_a.get_offset section_a.get_offset) 1 = [] ∧
      find_gadgets_section (some scenario_cpu) format_ab 1 [("ret", ret_only 1 0x1000)]
        section_a = some [("ret", ret_only 1 0x1000)]) ∧
    ((∀ buffer vaddr d, sized_cpu.find_gadget_in_memory buffer 0 vaddr d = []) ∧
      empty_section.get_size = 0 ∧
      find_gadgets_section (some sized_cpu) format_ab 3 [("ret", ret_only 1 0x1000)]
        empty_section = some [("ret", ret_only 1 0x1000)]) :=
  ⟨⟨rfl, rfl,
      (find_gadgets_empty_input ⟨⟨[], 0⟩, some scenario_cpu, some no_section_format⟩
        scenario_cpu no_section_format 3 [] section_a).1 rfl rfl⟩,
    ⟨rfl, (find_gadgets_empty_input scenario_program scenario_cpu format_ab 1
        [("ret", ret_only 1 0x1000)] section_a).2.1 rfl⟩,
    ⟨fun _ _ _ => rfl, rfl,
      (find_gadgets_empty_input scenario_program sized_cpu format_ab 3
        [("ret", ret_only 1 0x1000)] empty_section).2.2 (fun _ _ _ => rfl) rfl⟩⟩

/-! ## `search_and_display` -/

theorem search_and_display_hits_eq (exformat : ExecutableFormat) (s : Section)
    (hits : List Nat) :
    ∀ out, search_and_display_hits exformat s out hits =
      out ++ hits.map fun hit =>
        u64 (exformat.raw_offset_to_va s.get_offset s.get_offset + hit) := by
  induction hits with
  | nil => intro out; simp [search_and_display_hits]
  | cons h t ih => intro out; simp [search_and_display_hits, ih]

theorem search_and_display_sections_eq (exformat : ExecutableFormat)
    (search : Section → List Nat → Nat → List Nat) (hex_values : List Nat) (size : Nat)
    (secs : List Section) :
    ∀ out, search_and_display_sections exformat search hex_values size out secs =
      out ++ secs.flatMap fun s => (search s hex_values size).map fun hit =>
        u64 (exformat.raw_offset_to_va s.get_offset s.get_offset + hit) := by
  induction secs with
  | nil => intro out; simp [search_and_display_sections]
  | cons s t ih =>
    intro out
    simp [search_and_display_sections, ih, search_and_display_hits_eq]

/-- C4, address computation of `Program::search_and_display`: the addresses
displayed are, section by section in enumeration order and hit by hit in the
order the search of the section returns them,
`raw_offset_to_va(section offset, section offset) + hit` modulo `2 ^ 64`; one
address per hit, so a section without hit displays nothing. -/
theorem search_and_display_addresses (p : Program) (exformat : ExecutableFormat)
    (search_in_memory : Section → List Nat → Nat → List Nat)
    (hex_values : List Nat) (size : Nat) (hfmt : p.m_exformat = some exformat) :
    ∃ out, p.search_and_display search_in_memory hex_values size = some out ∧
      out = (exformat.get_executables_section p.m_file).flatMap (fun s =>
        (search_in_memory s hex_values size).map fun hit =>
          (exformat.raw_offset_to_va s.get_offset s.get_offset + hit) % 2 ^ 64) ∧
      out.length = ((exformat.get_executables_section p.m_file).map fun s =>
        (search_in_memory s hex_values size).length).sum := by
  refine ⟨search_and_display_sections exformat search_in_memory hex_values size []
    (exformat.get_executables_section p.m_file),
    by simp [Program.search_and_display, hfmt], ?_, ?_⟩
  · rw [search_and_display_sections_eq]; simp [u64]
  · rw [search_and_display_sections_eq]
    simp [List.length_flatMap, Function.comp_def]

/-- Witness of C4: the byte `C3` at the in-section offsets 5 and 12 of a section
with virtual base `0x2000`, after a section without hit: the addresses
`0x2005` and `0x200C` are displayed. -/
theorem search_and_display_addresses_witness :
    (Program.mk ⟨[], 0⟩ none (some search_format)).m_exformat = some search_format ∧
    (∃ out, Program.search_and_display ⟨⟨[], 0⟩, none, some search_format⟩
        Section.search_in_memory [0xC3] 1 = some out ∧
      out = (search_format.get_executables_section
          (Program.mk ⟨[], 0⟩ none (some search_format)).m_file).flatMap (fun s =>
        (Section.search_in_memory s [0xC3] 1).map fun hit =>
          (search_format.raw_offset_to_va s.get_offset s.get_offset + hit) % 2 ^ 64) ∧
      out.length = ((search_format.get_executables_section
          (Program.mk ⟨[], 0⟩ none (some search_format)).m_file).map fun s =>
        (Section.search_in_memory s [0xC3] 1).length).sum) ∧
    Section.search_in_memory section_with_ret [0xC3] 1 = [5, 12] ∧
    Program.search_and_display ⟨⟨[], 0⟩, none, some search_format⟩
      Section.search_in_memory [0xC3] 1 = some [0x2005, 0x200C] :=
  ⟨rfl,
    search_and_display_addresses ⟨⟨[], 0⟩, none, some search_format⟩ search_format
      Section.search_in_memory [0xC3] 1 rfl,
    by decide, by decide⟩

/-! ## The constructor -/

open E_CPU

theorem ctor_closed (env : Env) (path : String) (arch : E_CPU)
    (h : env.open_file path = none) :
    Program.ctor env path arch = .error "Cannot open the file" := by
  simp [Program.ctor, h]

theorem ctor_ia32 (env : Env) (path : String) (content : List Nat)
    (h : env.open_file path = some content) :
    Program.ctor env path CPU_IA32 =
      match env.new_Raw with
      | none => .error "Cannot allocate raw"
      | some raw =>
        match env.new_Ia32 with
        | none => .error "Cannot allocate m_cpu"
        | some cpu => .ok ⟨⟨content, 0⟩, some cpu, some raw⟩ := by
  simp only [Program.ctor, h]
  cases env.new_Raw with
  | none => rfl
  | some raw =>
    cases env.new_Ia32 with
    | none => rfl
    | some cpu => rfl

theorem ctor_ia64 (env : Env) (path : String) (content : List Nat)
    (h : env.open_file path = some content) :
    Program.ctor env path CPU_IA64 =
      match env.new_Raw with
      | none => .error "Cannot allocate raw"
      | some raw =>
        match env.new_Ia64 with
        | none => .error "Cannot allocate m_cpu"
        | some cpu => .ok ⟨⟨content, 0⟩, some cpu, some raw⟩ := by
  simp only [Program.ctor, h]
  cases env.new_Raw with
  | none => rfl
  | some raw =>
    cases env.new_Ia64 with
    | none => rfl
    | some cpu => rfl

theorem ctor_other (env : Env) (path : String) (content : List Nat) (n : Nat)
    (h : env.open_file path = some content) :
    Program.ctor env path (other n) =
      match env.new_Raw with
      | none => .error "Cannot allocate raw"
      | some _ => .error "Don't know your architecture" := by
  simp only [Program.ctor, h]
  cases env.new_Raw with
  | none => rfl
  | some raw => rfl

theorem ctor_unknown (env : Env) (path : String) (content : List Nat)
    (h : env.open_file path = some content) :
    Program.ctor env path CPU_UNKNOWN =
      match env.GetExecutableFormat (IfStream.read_dword ⟨content, 0⟩).1 with
      | none => .error "GetExecutableFormat fails"
      | some exformat =>
        match exformat.get_cpu (IfStream.read_dword ⟨content, 0⟩).2 with
        | none => .error "get_cpu fails"
        | some cpu =>
          .ok ⟨(IfStream.read_dword ⟨content, 0⟩).2, some cpu, some exformat⟩ := by
  simp only [Program.ctor, h]
  cases hg : env.GetExecutableFormat (IfStream.read_dword ⟨content, 0⟩).1 with
  | none => simp [hg]; rfl
  | some f =>
    cases hc : f.get_cpu (IfStream.read_dword ⟨content, 0⟩).2 with
    | none => simp [hg, hc]; rfl
    | some cpu => simp [hg, hc]; rfl

/-- C6 as amended, construction with an explicit architecture: for a file that
can be opened and a selector other than `CPU_UNKNOWN`, the constructor allocates
the Raw format without reading the file or asking `GetExecutableFormat`; if
that allocation fails construction fails with "Cannot allocate raw", whatever
the selector; otherwise `CPU_IA32` binds Raw and the allocated Ia32, `CPU_IA64`
binds Raw and the allocated Ia64, each failing with "Cannot allocate m_cpu"
when the CPU cannot be allocated, and every other selector fails with
"Don't know your architecture". -/
theorem ctor_explicit_architecture (env : Env) (program_path : String) (arch : E_CPU)
    (content : List Nat) (hopen : env.open_file program_path = some content)
    (harch : arch ≠ CPU_UNKNOWN) :
    (env.new_Raw = none →
      Program.ctor env program_path arch = .error "Cannot allocate raw") ∧
    (∀ raw, env.new_Raw = some raw →
      (arch = CPU_IA32 →
        (∀ cpu, env.new_Ia32 = some cpu → Program.ctor env program_path arch =
          .ok ⟨⟨content, 0⟩, some cpu, some raw⟩) ∧
        (env.new_Ia32 = none →
          Program.ctor env program_path arch = .error "Cannot allocate m_cpu")) ∧
      (arch = CPU_IA64 →
        (∀ cpu, env.new_Ia64 = some cpu → Program.ctor env program_path arch =
          .ok ⟨⟨content, 0⟩, some cpu, some raw⟩) ∧
        (env.new_Ia64 = none →
          Program.ctor env program_path arch = .error "Cannot allocate m_cpu")) ∧
      (arch ≠ CPU_IA32 → arch ≠ CPU_IA64 →
        Program.ctor env program_path arch = .error "Don't know your architecture")) ∧
    (∀ G, Program.ctor { env with GetExecutableFormat := G } program_path arch =
      Program.ctor env program_path arch) := by
  refine ⟨?_, ?_, ?_⟩
  · intro hraw
    cases arch with
    | CPU_IA32 => rw [ctor_ia32 env _ content hopen, hraw]
    | CPU_IA64 => rw [ctor_ia64 env _ content hopen, hraw]
    | CPU_UNKNOWN => exact absurd rfl harch
    | other n => rw [ctor_other env _ content n hopen, hraw]
  · intro raw hraw
    refine ⟨?_, ?_, ?_⟩
    · intro ha; subst ha
      refine ⟨?_, ?_⟩
      · intro cpu hc; rw [ctor_ia32 env _ content hopen, hraw, hc]
      · intro hc; rw [ctor_ia32 env _ content hopen, hraw, hc]
    · intro ha; subst ha
      refine ⟨?_, ?_⟩
      · intro cpu hc; rw [ctor_ia64 env _ content hopen, hraw, hc]
      · intro hc; rw [ctor_ia64 env _ content hopen, hraw, hc]
    · intro h32 h64
      cases arch with
      | CPU_IA32 => exact absurd rfl h32
      | CPU_IA64 => exact absurd rfl h64
      | CPU_UNKNOWN => exact absurd rfl harch
      | other n => rw [ctor_other env _ content n hopen, hraw]
  · intro G
    have hopen' : ({ env with GetExecutableFormat := G } : Env).open_file program_path =
        some content := hopen
    cases arch with
    | CPU_IA32 => rw [ctor_ia32 env _ content hopen, ctor_ia32 _ _ content hopen']
    | CPU_IA64 => rw [ctor_ia64 env _ content hopen, ctor_ia64 _ _ content hopen']
    | CPU_UNKNOWN => exact absurd rfl harch
    | other n => rw [ctor_other env _ content n hopen, ctor_other _ _ content n hopen']

/-- Witness of C6 as amended: the file `b.bin` opened as IA32, as IA64 and with
a selector that is no enumerator, on a host where every allocation succeeds. -/
theorem ctor_explicit_architecture_witness :
    host_env.open_file "b.bin" = some [1, 2, 3, 4] ∧ CPU_IA32 ≠ CPU_UNKNOWN ∧
    host_env.new_Raw = some raw_format ∧ host_env.new_Ia32 = some scenario_cpu ∧
    host_env.new_Ia64 = some ia64_cpu ∧
    Program.ctor host_env "b.bin" CPU_IA32 =
      .ok ⟨⟨[1, 2, 3, 4], 0⟩, some scenario_cpu, some raw_format⟩ ∧
    Program.ctor host_env "b.bin" CPU_IA64 =
      .ok ⟨⟨[1, 2, 3, 4], 0⟩, some ia64_cpu, some raw_format⟩ ∧
    Program.ctor host_env "b.bin" (other 7) = .error "Don't know your architecture" :=
  ⟨by decide, by decide, rfl, rfl, rfl,
    ((((ctor_explicit_architecture host_env "b.bin" CPU_IA32 [1, 2, 3, 4] (by decide)
      (by decide)).2.1 raw_format rfl).1 rfl).1 scenario_cpu rfl),
    ((((ctor_explicit_architecture host_env "b.bin" CPU_IA64 [1, 2, 3, 4] (by decide)
      (by decide)).2.1 raw_format rfl).2.1 rfl).1 ia64_cpu rfl),
    (((ctor_explicit_architecture host_env "b.bin" (other 7) [1, 2, 3, 4] (by decide)
      (by decide)).2.1 raw_format rfl).2.2 (by decide) (by decide))⟩

/-- Counterexample to C6 as stated: the file `b.bin` can be opened and the
selector is `CPU_IA32`, but the Raw format cannot be allocated: no Ia32 is
constructed, construction fails with "Cannot allocate raw"; with a selector
that is no enumerator the failure is the same one, not
"Don't know your architecture"; and when only the Ia32 object cannot be
allocated construction fails with "Cannot allocate m_cpu". -/
theorem ctor_explicit_architecture_counterexample :
    exhausted_env.open_file "b.bin" = some [1, 2, 3, 4] ∧
    Program.ctor exhausted_env "b.bin" CPU_IA32 = .error "Cannot allocate raw" ∧
    Program.ctor exhausted_env "b.bin" (other 7) = .error "Cannot allocate raw" ∧
    Program.ctor no_ia32_env "b.bin" CPU_IA32 = .error "Cannot allocate m_cpu" :=
  ⟨by decide, rfl, rfl, rfl⟩

/-- C7, construction failures of `Program::Program`: construction fails when
the file cannot be opened, whatever else is given; with `CPU_UNKNOWN` it
succeeds if and only if the file can be opened, `GetExecutableFormat` returns a
format for the magic read from the file start and that format's `get_cpu`
returns a CPU; a magic that is not recognised is a failure even when the Raw
format could be allocated, and a successful construction binds the recognised
format; after every successful construction the format and the CPU are bound. -/
theorem ctor_failures (env : Env) (program_path : String) (arch : E_CPU) :
    (env.open_file program_path = none →
      Program.ctor env program_path arch = .error "Cannot open the file") ∧
    ((∃ p, Program.ctor env program_path CPU_UNKNOWN = .ok p) ↔
      ∃ content exformat cpu, env.open_file program_path = some content ∧
        env.GetExecutableFormat (IfStream.read_dword ⟨content, 0⟩).1 = some exformat ∧
        exformat.get_cpu (IfStream.read_dword ⟨content, 0⟩).2 = some cpu) ∧
    (∀ content, env.open_file program_path = some content →
      (env.GetExecutableFormat (IfStream.read_dword ⟨content, 0⟩).1 = none →
        Program.ctor env program_path CPU_UNKNOWN = .error "GetExecutableFormat fails") ∧
      (∀ p, Program.ctor env program_path CPU_UNKNOWN = .ok p →
        p.m_exformat = env.GetExecutableFormat (IfStream.read_dword ⟨content, 0⟩).1)) ∧
    (∀ p, Program.ctor env program_path arch = .ok p →
      p.m_exformat.isSome = true ∧ p.m_cpu.isSome = true) := by
  refine ⟨ctor_closed env program_path arch, ?_, ?_, ?_⟩
  · cases hopen : env.open_file program_path with
    | none =>
      rw [ctor_closed env _ CPU_UNKNOWN hopen]
      simp
    | some content =>
      rw [ctor_unknown env _ content hopen]
      cases hg : env.GetExecutableFormat (IfStream.read_dword ⟨content, 0⟩).1 with
      | none => simp [hg]
      | some f =>
        cases hc : f.get_cpu (IfStream.read_dword ⟨content, 0⟩).2 with
        | none => simp [hg, hc]
        | some cpu =>
          constructor
          · intro _; exact ⟨content, f, cpu, rfl, hg, hc⟩
          · intro _
            exact ⟨⟨(IfStream.read_dword ⟨content, 0⟩).2, some cpu, some f⟩, by simp only [hc]⟩
  · intro content hopen
    rw [ctor_unknown env _ content hopen]
    cases hg : env.GetExecutableFormat (IfStream.read_dword ⟨content, 0⟩).1 with
    | none => simp
    | some f =>
      cases hc : f.get_cpu (IfStream.read_dword ⟨content, 0⟩).2 with
      | none => simp [hc]
      | some cpu =>
        refine ⟨by simp, ?_⟩
        intro p hp
        simp only [hc, Except.ok.injEq] at hp
        rw [← hp]
  · intro p hp
    cases hopen : env.open_file program_path with
    | none =>
      rw [ctor_closed env _ arch hopen] at hp
      simp at hp
    | some content =>
      cases arch with
      | CPU_IA32 =>
        rw [ctor_ia32 env _ content hopen] at hp
        cases hr : env.new_Raw with
        | none => rw [hr] at hp; simp at hp
        | some raw =>
          cases hc : env.new_Ia32 with
          | none => rw [hr, hc] at hp; simp at hp
          | some cpu =>
            rw [hr, hc] at hp
            simp only [Except.ok.injEq] at hp
            rw [← hp]; exact ⟨rfl, rfl⟩
      | CPU_IA64 =>
        rw [ctor_ia64 env _ content hopen] at hp
        cases hr : env.new_Raw with
        | none => rw [hr] at hp; simp at hp
        | some raw =>
          cases hc : env.new_Ia64 with
          | none => rw [hr, hc] at hp; simp at hp
          | some cpu =>
            rw [hr, hc] at hp
            simp only [Except.ok.injEq] at hp
            rw [← hp]; exact ⟨rfl, rfl⟩
      | CPU_UNKNOWN =>
        rw [ctor_unknown env _ content hopen] at hp
        cases hg : env.GetExecutableFormat (IfStream.read_dword ⟨content, 0⟩).1 with
        | none => rw [hg] at hp; simp at hp
        | some f =>
          cases hc : f.get_cpu (IfStream.read_dword ⟨content, 0⟩).2 with
          | none => rw [hg] at hp; simp [hc] at hp
          | some cpu =>
            rw [hg] at hp
            simp only [hc, Except.ok.injEq] at hp
            rw [← hp]; exact ⟨rfl, rfl⟩
      | other n =>
        rw [ctor_other env _ content n hopen] at hp
        cases hr : env.new_Raw with
        | none => rw [hr] at hp; simp at hp
        | some raw => rw [hr] at hp; simp at hp

/-- Witness of C7: a path that cannot be opened, the file `a.elf` whose magic
is recognised, and the file `b.bin` whose magic is not although the Raw format
could be allocated. -/
theorem ctor_failures_witness :
    (host_env.open_file "missing" = none ∧
      Program.ctor host_env "missing" CPU_IA32 = .error "Cannot open the file") ∧
    (host_env.open_file "a.elf" = some [0x7F, 0x45, 0x4C, 0x46, 1] ∧
      (IfStream.read_dword ⟨[0x7F, 0x45, 0x4C, 0x46, 1], 0⟩).1 = 0x464C457F ∧
      ∃ p, Program.ctor host_env "a.elf" CPU_UNKNOWN = .ok p) ∧
    (host_env.open_file "b.bin" = some [1, 2, 3, 4] ∧
      host_env.GetExecutableFormat (IfStream.read_dword ⟨[1, 2, 3, 4], 0⟩).1 = none ∧
      host_env.new_Raw = some raw_format ∧
      Program.ctor host_env "b.bin" CPU_UNKNOWN = .error "GetExecutableFormat fails") ∧
    (∀ p, Program.ctor host_env "a.elf" CPU_UNKNOWN = .ok p →
      p.m_exformat.isSome = true ∧ p.m_cpu.isSome = true) :=
  ⟨⟨by decide, (ctor_failures host_env "missing" CPU_IA32).1 (by decide)⟩,
    ⟨by decide, by decide,
      (ctor_failures host_env "a.elf" CPU_UNKNOWN).2.1.mpr
        ⟨[0x7F, 0x45, 0x4C, 0x46, 1], elf_format, scenario_cpu, by decide, rfl, rfl⟩⟩,
    ⟨by decide, rfl, rfl,
      ((ctor_failures host_env "b.bin" CPU_UNKNOWN).2.2.1 [1, 2, 3, 4] (by decide)).1 rfl⟩,
    (ctor_failures host_env "a.elf" CPU_UNKNOWN).2.2.2⟩

end Rp
